import Mathlib

/-!
Verification of the propositional-logic LaTeX parser in `src/main.py`
(repository `Parser-Latex`).

The file shallowly embeds the two-stage front end of the program:
* `DeterministicFiniteAutomata` with guarded transitions (`execute`, `reset`,
  `in_final_state`),
* the pattern table `build_patterns`,
* the scanner `LexicalAnalyser` (`get_next_token`, `peek_next_token`,
  `peek_peek_next_token`, maximal munch),
* the recursive-descent `Parser` (`parse`, `parse_constant`, ...,
  `parse_binary_operator`),
and proves the spec's claims about it.

Python exceptions are modelled with `Except`:
* the scanner's `Exception(f'Invalid symbol "{ symbol}".')` (whose payload is a
  function of the symbol alone) becomes `ScanError.alphabetError symbol`;
* an out-of-range list subscript (`self.content[self.next_character_position]`
  on a line with no remaining newline) becomes `ScanError.indexError`;
* the parser's bare `raise Exception()` statements become
  `ParseError.unexpected r` where `r : Rule` names the production whose
  consumption raised (the source's own `Rule` enum);
* subscripting the `None` returned by an exhausted scanner (`token[0]` /
  `token[1]`, a `TypeError` in Python) becomes `ParseError.noneTypeError`;
* `assert token[0] == Lexeme.PROPOSITION` becomes `ParseError.assertionError`.

Python's transition "sets" are embedded as lists in the source's textual
order; theorem `c9_transition_determinism` proves the guards are pairwise
disjoint on the alphabet, so every iteration order yields the same scan.
-/

namespace ParserLatex

/-- `ALPHABET = list(r"abcdefghijklmnopqrstuvwxyz0123456789\() ")`. -/
def ALPHABET : List Char := "abcdefghijklmnopqrstuvwxyz0123456789\\() ".toList

/-- `class Lexeme(Enum)`. -/
inductive Lexeme where
  | CONSTANT
  | PROPOSITION
  | OPEN_PARENTHESIS
  | CLOSE_PARENTHESIS
  | UNARY_OPERATOR
  | BINARY_OPERATOR
deriving Repr, DecidableEq

/-- Errors raised by the scanner layer. -/
inductive ScanError where
  | alphabetError (symbol : Char)
  | indexError
deriving Repr, DecidableEq

/-- A transition rule: (source state, guard over one symbol, destination). -/
abbrev Transition := Nat × (Char → Bool) × Nat

/-- `class DeterministicFiniteAutomata`: immutable definition plus the mutable
`state` field. -/
structure DeterministicFiniteAutomata where
  transactions : List Transition
  initial_state : Nat
  final_states : List Nat
  state : Nat

namespace DeterministicFiniteAutomata

/-- The `for transaction in self.transactions: if transaction[0] == self.state
and transaction[1](symbol): ... break` search: first rule whose source matches
the current state and whose guard accepts the symbol. -/
def findTransition (ts : List Transition) (s : Nat) (c : Char) : Option Nat :=
  match ts with
  | [] => none
  | (src, guard, dst) :: rest =>
    if src == s && guard c then some dst else findTransition rest s c

/-- `in_final_state` property. -/
def in_final_state (d : DeterministicFiniteAutomata) : Bool :=
  d.final_states.contains d.state

/-- `execute(symbol)`: validate the symbol against the alphabet (raising before
any transition is attempted), then apply the first matching rule, stalling if
none matches. -/
def execute (d : DeterministicFiniteAutomata) (c : Char) :
    Except ScanError DeterministicFiniteAutomata :=
  if ALPHABET.contains c then
    .ok (match findTransition d.transactions d.state c with
         | some dst => { d with state := dst }
         | none => d)
  else
    .error (.alphabetError c)

/-- `reset()`. -/
def reset (d : DeterministicFiniteAutomata) : DeterministicFiniteAutomata :=
  { d with state := d.initial_state }

end DeterministicFiniteAutomata

open DeterministicFiniteAutomata

/-- Transitions of the `Lexeme.CONSTANT` automaton, in source order. -/
def constantTransactions : List Transition :=
  [ (0, fun x => !("tf".toList.contains x), 999),
    -- true
    (0, fun x => x == 't', 1),
    (1, fun x => x == 'r', 2),
    (2, fun x => x == 'u', 3),
    (3, fun x => x == 'e', 4),
    (4, fun _ => true, 5),
    -- false
    (0, fun x => x == 'f', 6),
    (6, fun x => x == 'a', 7),
    (7, fun x => x == 'l', 8),
    (8, fun x => x == 's', 9),
    (9, fun x => x == 'e', 10),
    (10, fun _ => true, 11) ]

/-- Transitions of the `Lexeme.PROPOSITION` automaton. -/
def propositionTransactions : List Transition :=
  [ (0, fun x => "0123456789".toList.contains x, 1),
    (0, fun x => !("abcdefghijklmnopqrstuvwxyz0123456789".toList.contains x), 999),
    (1, fun x => "abcdefghijklmnopqrstuvwxyz0123456789".toList.contains x, 1),
    (1, fun x => !("abcdefghijklmnopqrstuvwxyz0123456789".toList.contains x), 999) ]

/-- Transitions of the `Lexeme.OPEN_PARENTHESIS` automaton. -/
def openParenthesisTransactions : List Transition :=
  [ (0, fun x => x == '(', 1),
    (0, fun x => x != '(', 999),
    (1, fun _ => true, 999) ]

/-- Transitions of the `Lexeme.CLOSE_PARENTHESIS` automaton. -/
def closeParenthesisTransactions : List Transition :=
  [ (0, fun x => x == ')', 1),
    (1, fun _ => true, 999),
    (0, fun x => x != ')', 999) ]

/-- Transitions of the `Lexeme.UNARY_OPERATOR` automaton (`\neg`). -/
def unaryOperatorTransactions : List Transition :=
  [ (0, fun x => x == '\\', 1),
    (0, fun x => x != '\\', 999),
    (1, fun x => x == 'n', 2),
    (2, fun x => x == 'e', 3),
    (3, fun x => x == 'g', 4),
    (4, fun _ => true, 999) ]

/-- Transitions of the `Lexeme.BINARY_OPERATOR` automaton
(`\wedge`, `\vee`, `\rightarrow`, `\leftrightarrow`). -/
def binaryOperatorTransactions : List Transition :=
  [ (0, fun x => x == '\\', 1),
    (0, fun x => x != '\\', 999),
    -- wedge
    (1, fun x => x == 'w', 2),
    (2, fun x => x == 'e', 3),
    (3, fun x => x == 'd', 4),
    (4, fun x => x == 'g', 5),
    (5, fun x => x == 'e', 6),
    (6, fun _ => true, 999),
    -- vee
    (1, fun x => x == 'v', 7),
    (7, fun x => x == 'e', 8),
    (8, fun x => x == 'e', 9),
    (9, fun _ => true, 999),
    -- rightarrow
    (1, fun x => x == 'r', 10),
    (10, fun x => x == 'i', 11),
    (11, fun x => x == 'g', 12),
    (12, fun x => x == 'h', 13),
    (13, fun x => x == 't', 14),
    (14, fun x => x == 'a', 15),
    (15, fun x => x == 'r', 16),
    (16, fun x => x == 'r', 17),
    (17, fun x => x == 'o', 18),
    (18, fun x => x == 'w', 19),
    (19, fun _ => true, 999),
    -- leftrightarrow
    (1, fun x => x == 'l', 20),
    (20, fun x => x == 'e', 21),
    (21, fun x => x == 'f', 22),
    (22, fun x => x == 't', 23),
    (23, fun x => x == 'r', 24),
    (24, fun x => x == 'i', 25),
    (25, fun x => x == 'g', 26),
    (26, fun x => x == 'h', 27),
    (27, fun x => x == 't', 28),
    (28, fun x => x == 'a', 29),
    (29, fun x => x == 'r', 30),
    (30, fun x => x == 'r', 31),
    (31, fun x => x == 'o', 32),
    (32, fun x => x == 'w', 33),
    (33, fun _ => true, 999) ]

/-- `build_patterns()`: the fixed pattern table, one automaton per lexeme. -/
def build_patterns : List (Lexeme × DeterministicFiniteAutomata) :=
  [ (Lexeme.CONSTANT, ⟨constantTransactions, 0, [4, 10], 0⟩),
    (Lexeme.PROPOSITION, ⟨propositionTransactions, 0, [1], 0⟩),
    (Lexeme.OPEN_PARENTHESIS, ⟨openParenthesisTransactions, 0, [1], 0⟩),
    (Lexeme.CLOSE_PARENTHESIS, ⟨closeParenthesisTransactions, 0, [1], 0⟩),
    (Lexeme.UNARY_OPERATOR, ⟨unaryOperatorTransactions, 0, [4], 0⟩),
    (Lexeme.BINARY_OPERATOR, ⟨binaryOperatorTransactions, 0, [6, 9, 19, 33], 0⟩) ]

/-- `class LexicalAnalyser`: pattern table (mutable automaton states), the
line's characters (`content` and `symbols` hold the same character sequence in
the source), and the cursor. -/
structure LexicalAnalyser where
  patterns : List (Lexeme × DeterministicFiniteAutomata)
  content : List Char
  next_character_position : Nat

namespace LexicalAnalyser

/-- Fresh scanner for one line, as `LexicalAnalyser(content)` builds it. -/
def mk0 (content : List Char) : LexicalAnalyser :=
  ⟨build_patterns, content, 0⟩

/-- `end_of_file` property: `self.content[self.next_character_position] == "\n"`;
subscripting past the end raises IndexError. -/
def end_of_file (s : LexicalAnalyser) : Except ScanError Bool :=
  match s.content.get? s.next_character_position with
  | some c => .ok (c == '\n')
  | none => .error .indexError

/-- `next_character()`: return the lowered character under the cursor and
advance. -/
def next_character (s : LexicalAnalyser) : Except ScanError (Char × LexicalAnalyser) :=
  match s.content.get? s.next_character_position with
  | some c => .ok (c.toLower, { s with next_character_position := s.next_character_position + 1 })
  | none => .error .indexError

/-- `peek()`: the lowered character under the cursor, not consumed. -/
def peek (s : LexicalAnalyser) : Except ScanError Char :=
  match s.content.get? s.next_character_position with
  | some c => .ok c.toLower
  | none => .error .indexError

/-- `reset_dfas()`. -/
def reset_dfas (ps : List (Lexeme × DeterministicFiniteAutomata)) :
    List (Lexeme × DeterministicFiniteAutomata) :=
  ps.map (fun p => (p.1, p.2.reset))

/-- The inner maximal-munch loop of `get_next_token`:
`while dfa.in_final_state and not self.end_of_file: dfa.execute(self.peek());
if dfa.in_final_state: symbol = self.next_character(); word += symbol`.
`rem` is the content from the cursor on; `n` accumulates the number of
characters consumed so far (the cursor offset, mutated in place in the
source); the result carries the automaton, the extended word and the final
offset. -/
def munch (dfa : DeterministicFiniteAutomata) (rem : List Char) (word : List Char)
    (n : Nat) : Except ScanError (DeterministicFiniteAutomata × List Char × Nat) :=
  if dfa.in_final_state then
    match rem with
    | [] => .error .indexError           -- end_of_file subscripts past the end
    | c :: rest =>
      if c == '\n' then .ok (dfa, word, n)
      else
        match dfa.execute c.toLower with -- peek() lowers the character
        | .error e => .error e
        | .ok dfa' =>
          if dfa'.in_final_state then munch dfa' rest (word ++ [c.toLower]) (n + 1)
          else .ok (dfa', word, n)
  else .ok (dfa, word, n)

/-- The `for pattern in self.patterns` body of `get_next_token`: execute the
symbol on each automaton in table order, stopping at the first that lands in a
final state.  Returns the updated table (automata after the fired one are left
untouched, as the loop breaks) and the fired pattern, if any. -/
def runPatterns (ps : List (Lexeme × DeterministicFiniteAutomata)) (c : Char) :
    Except ScanError
      (List (Lexeme × DeterministicFiniteAutomata) × Option (Lexeme × DeterministicFiniteAutomata)) :=
  match ps with
  | [] => .ok ([], none)
  | (lex, d) :: rest =>
    match d.execute c with
    | .error e => .error e
    | .ok d' =>
      if d'.in_final_state then .ok ((lex, d') :: rest, some (lex, d'))
      else
        match runPatterns rest c with
        | .error e => .error e
        | .ok (rest', fired) => .ok ((lex, d') :: rest', fired)

/-- The `while not self.end_of_file` loop of `get_next_token` over the content
from the cursor on.  `n` accumulates the number of characters consumed so far
(the cursor offset).  Returns the token (or the `None` signal), the pattern
table after the call, and the final offset. -/
def scanLoop (ps : List (Lexeme × DeterministicFiniteAutomata)) (rem : List Char)
    (word : List Char) (n : Nat) :
    Except ScanError
      (Option (Lexeme × List Char) × List (Lexeme × DeterministicFiniteAutomata) × Nat) :=
  match rem with
  | [] => .error .indexError             -- end_of_file subscripts past the end
  | c :: rest =>
    if c == '\n' then .ok (none, ps, n)  -- `else: return None` — no reset here
    else
      match runPatterns ps c.toLower with
      | .error e => .error e
      | .ok (ps', fired) =>
        match fired with
        | some (lex, dfa) =>
          match munch dfa rest (word ++ [c.toLower]) (n + 1) with
          | .error e => .error e
          | .ok (_, w, n') =>
            -- `self.reset_dfas(); return pattern[0], word`
            .ok (some (lex, w), reset_dfas ps', n')
        | none => scanLoop ps' rest (word ++ [c.toLower]) (n + 1)

/-- `get_next_token()`: skip at most one leading separator (the initial
`if self.peek() == " ": self.next_character()`), then run the scan loop.
Returns the token (or `none`, the end-of-formula signal) together with the
scanner after the call. -/
def get_next_token (s : LexicalAnalyser) :
    Except ScanError (Option (Lexeme × List Char) × LexicalAnalyser) :=
  match s.content.get? s.next_character_position with
  | none => .error .indexError           -- the initial peek() raises
  | some c =>
    let skipped := if c.toLower == ' ' then 1 else 0
    match scanLoop s.patterns (s.content.drop (s.next_character_position + skipped)) [] 0 with
    | .error e => .error e
    | .ok (tok, ps', n) =>
      .ok (tok, { s with patterns := ps',
                         next_character_position := s.next_character_position + skipped + n })

/-- `peek_next_token()`: `s = copy.copy(self); return s.get_next_token()`.
`copy.copy` is a shallow copy: the pattern table (and hence every automaton
object) is shared with the real scanner, while the integer cursor is not, so
the peek leaves the cursor in place but the automaton states mutated by the
copied run are visible in the real scanner. -/
def peek_next_token (s : LexicalAnalyser) :
    Except ScanError (Option (Lexeme × List Char) × LexicalAnalyser) :=
  match get_next_token s with
  | .error e => .error e
  | .ok (tok, s') => .ok (tok, { s with patterns := s'.patterns })

/-- `peek_peek_next_token()`: two shallow-copied `get_next_token` runs; the
real scanner keeps its cursor but sees the automaton states left by the second
run. -/
def peek_peek_next_token (s : LexicalAnalyser) :
    Except ScanError (Option (Lexeme × List Char) × LexicalAnalyser) :=
  match get_next_token s with
  | .error e => .error e
  | .ok (_, s1) =>
    match get_next_token s1 with
    | .error e => .error e
    | .ok (tok, s2) => .ok (tok, { s with patterns := s2.patterns })

end LexicalAnalyser

/-- `class Rule(Enum)` from the source. -/
inductive Rule where
  | FORMULA
  | CONSTANT
  | PROPOSITION
  | UNARY_FORMULA
  | BINARY_FORMULA
  | OPEN_PARENTHESIS
  | CLOSE_PARENTHESIS
  | UNARY_OPERATOR
  | BINARY_OPERATOR
deriving Repr, DecidableEq

/-- The AST node classes (`FormulaNode`, `ConstantNode`, ..., built by the
parser).  `formulaNode` is the wrapper `parse` puts around every result. -/
inductive Node where
  | formulaNode (child : Node)
  | constantNode (value : List Char)
  | propositionNode (value : List Char)
  | negationFormulaNode (child : Node)
  | andFormulaNode (left_child right_child : Node)
  | orFormulaNode (left_child right_child : Node)
  | impliesFormulaNode (left_child right_child : Node)
  | biConditionalFormulaNode (left_child right_child : Node)
deriving Repr, DecidableEq

/-- The operator node classes returned by `parse_binary_operator`. -/
inductive BinaryOperatorNode where
  | andOperatorNode
  | orOperatorNode
  | impliesOperatorNode
  | biConditionalOperatorNode
deriving Repr, DecidableEq

/-- Errors raised during parsing. -/
inductive ParseError where
  | scanError (e : ScanError)      -- an exception propagated from the scanner
  | noneTypeError                  -- `token[0]` / `token[1]` with `token is None`
  | unexpected (site : Rule)       -- a bare `raise Exception()`, by production
  | assertionError                 -- the failed assert in `parse_proposition`
  | outOfFuel                      -- recursion bound (Python's recursion limit)
deriving Repr, DecidableEq

namespace Parser

open LexicalAnalyser

/-- `Parser.parse_constant`. -/
def parse_constant (s : LexicalAnalyser) : Except ParseError (Node × LexicalAnalyser) :=
  match get_next_token s with
  | .error e => .error (.scanError e)
  | .ok (none, _) => .error .noneTypeError
  | .ok (some (lex, w), s') =>
    if lex == Lexeme.CONSTANT then .ok (.constantNode w, s')
    else .error (.unexpected .CONSTANT)

/-- `Parser.parse_proposition` (with its `assert`). -/
def parse_proposition (s : LexicalAnalyser) : Except ParseError (Node × LexicalAnalyser) :=
  match get_next_token s with
  | .error e => .error (.scanError e)
  | .ok (none, _) => .error .noneTypeError
  | .ok (some (lex, w), s') =>
    if lex == Lexeme.PROPOSITION then .ok (.propositionNode w, s')
    else .error .assertionError

/-- `Parser.parse_open_parenthesis`. -/
def parse_open_parenthesis (s : LexicalAnalyser) : Except ParseError LexicalAnalyser :=
  match get_next_token s with
  | .error e => .error (.scanError e)
  | .ok (none, _) => .error .noneTypeError
  | .ok (some (lex, _), s') =>
    if lex == Lexeme.OPEN_PARENTHESIS then .ok s'
    else .error (.unexpected .OPEN_PARENTHESIS)

/-- `Parser.parse_close_parenthesis`. -/
def parse_close_parenthesis (s : LexicalAnalyser) : Except ParseError LexicalAnalyser :=
  match get_next_token s with
  | .error e => .error (.scanError e)
  | .ok (none, _) => .error .noneTypeError
  | .ok (some (lex, _), s') =>
    if lex == Lexeme.CLOSE_PARENTHESIS then .ok s'
    else .error (.unexpected .CLOSE_PARENTHESIS)

/-- `Parser.parse_unary_operator`. -/
def parse_unary_operator (s : LexicalAnalyser) : Except ParseError LexicalAnalyser :=
  match get_next_token s with
  | .error e => .error (.scanError e)
  | .ok (none, _) => .error .noneTypeError
  | .ok (some (lex, _), s') =>
    if lex == Lexeme.UNARY_OPERATOR then .ok s'
    else .error (.unexpected .UNARY_OPERATOR)

/-- `Parser.parse_binary_operator`: dispatches on the matched text (the token
kind is not inspected). -/
def parse_binary_operator (s : LexicalAnalyser) :
    Except ParseError (BinaryOperatorNode × LexicalAnalyser) :=
  match get_next_token s with
  | .error e => .error (.scanError e)
  | .ok (none, _) => .error .noneTypeError
  | .ok (some (_, w), s') =>
    if w == "\\wedge".toList then .ok (.andOperatorNode, s')
    else if w == "\\vee".toList then .ok (.orOperatorNode, s')
    else if w == "\\rightarrow".toList then .ok (.impliesOperatorNode, s')
    else if w == "\\leftrightarrow".toList then .ok (.biConditionalOperatorNode, s')
    else .error (.unexpected .BINARY_OPERATOR)

/-- `Parser.parse_unary_formula`, parameterised by the recursive `parse`. -/
def parse_unary_formula
    (parseFn : LexicalAnalyser → Except ParseError (Node × LexicalAnalyser))
    (s : LexicalAnalyser) : Except ParseError (Node × LexicalAnalyser) :=
  match parse_open_parenthesis s with
  | .error e => .error e
  | .ok s1 =>
    match parse_unary_operator s1 with
    | .error e => .error e
    | .ok s2 =>
      match parseFn s2 with
      | .error e => .error e
      | .ok (formula, s3) =>
        match parse_close_parenthesis s3 with
        | .error e => .error e
        | .ok s4 => .ok (.negationFormulaNode formula, s4)

/-- `Parser.parse_binary_formula`, parameterised by the recursive `parse`.
The final dispatch on the operator node's class is exhaustive (the trailing
`raise Exception()` of the source is dead code). -/
def parse_binary_formula
    (parseFn : LexicalAnalyser → Except ParseError (Node × LexicalAnalyser))
    (s : LexicalAnalyser) : Except ParseError (Node × LexicalAnalyser) :=
  match parse_open_parenthesis s with
  | .error e => .error e
  | .ok s1 =>
    match parse_binary_operator s1 with
    | .error e => .error e
    | .ok (op, s2) =>
      match parseFn s2 with
      | .error e => .error e
      | .ok (left_child, s3) =>
        match parseFn s3 with
        | .error e => .error e
        | .ok (right_child, s4) =>
          match parse_close_parenthesis s4 with
          | .error e => .error e
          | .ok s5 =>
            match op with
            | .andOperatorNode => .ok (.andFormulaNode left_child right_child, s5)
            | .orOperatorNode => .ok (.orFormulaNode left_child right_child, s5)
            | .impliesOperatorNode => .ok (.impliesFormulaNode left_child right_child, s5)
            | .biConditionalOperatorNode =>
              .ok (.biConditionalFormulaNode left_child right_child, s5)

/-- `Parser.parse`: one- and two-token lookahead dispatch, wrapping every
result in a `FormulaNode`.  The `fuel` argument bounds the recursion depth
(Python's recursion limit); every claim is settled with fuel shown sufficient. -/
def parse : Nat → LexicalAnalyser → Except ParseError (Node × LexicalAnalyser)
  | 0, _ => .error .outOfFuel
  | fuel + 1, s =>
    match peek_next_token s with
    | .error e => .error (.scanError e)
    | .ok (none, _) => .error .noneTypeError
    | .ok (some (lex, _), s1) =>
      match
        (match lex with
         | Lexeme.CONSTANT => parse_constant s1
         | Lexeme.PROPOSITION => parse_proposition s1
         | Lexeme.OPEN_PARENTHESIS =>
           match peek_peek_next_token s1 with
           | .error e => .error (.scanError e)
           | .ok (none, _) => .error .noneTypeError
           | .ok (some (lex2, _), s2) =>
             if lex2 == Lexeme.UNARY_OPERATOR then parse_unary_formula (parse fuel) s2
             else parse_binary_formula (parse fuel) s2
         | _ => .error (.unexpected .FORMULA)) with
      | .error e => .error e
      | .ok (child_node, s') => .ok (.formulaNode child_node, s')

end Parser

/-- One driver iteration of the source: build a fresh scanner on the line and
run `parser.parse()`.  Fuel `line.length + 1` is enough for every line (each
recursive `parse` call strictly consumes input first). -/
def parse_one_line (line : List Char) : Except ParseError Node :=
  match Parser.parse (line.length + 1) (LexicalAnalyser.mk0 line) with
  | .error e => .error e
  | .ok (n, _) => .ok n

/-! ### The grammar of section 6 and its canonical renderer

`Formula` is the abstract grammar
`Formula := Constant | Proposition | "(" UnaryOp Formula ")" | "(" BinaryOp Formula Formula ")"`.
`render` is the canonical renderer: fully parenthesized prefix form with
single-space separation (the terminating newline is appended by the caller). -/

/-- Character classes used by the grammar (the same literal classes that the
automaton guards test). -/
def lowercaseLetters : List Char := "abcdefghijklmnopqrstuvwxyz".toList

/-- The digit class. -/
def digitChars : List Char := "0123456789".toList

/-- The alphanumeric class. -/
def alnumChars : List Char := "abcdefghijklmnopqrstuvwxyz0123456789".toList

/-- The four binary connectives. -/
inductive BinOp where
  | wedge
  | vee
  | rightarrow
  | leftrightarrow
deriving Repr, DecidableEq

/-- Concrete text of a binary connective. -/
def BinOp.text : BinOp → List Char
  | .wedge => "\\wedge".toList
  | .vee => "\\vee".toList
  | .rightarrow => "\\rightarrow".toList
  | .leftrightarrow => "\\leftrightarrow".toList

/-- The operator node `parse_binary_operator` returns for each connective. -/
def opNode : BinOp → BinaryOperatorNode
  | .wedge => .andOperatorNode
  | .vee => .orOperatorNode
  | .rightarrow => .impliesOperatorNode
  | .leftrightarrow => .biConditionalOperatorNode

/-- Formulas of the grammar of section 6. -/
inductive Formula where
  | const (value : List Char)
  | prop (value : List Char)
  | neg (f : Formula)
  | bin (op : BinOp) (l r : Formula)
deriving Repr, DecidableEq

/-- Validity in the grammar: constants are the literals `true`/`false`,
propositions are a digit followed by alphanumerics (`Digit (Digit | Letter)*`,
in the lower-cased terminal alphabet). -/
def Formula.valid : Formula → Bool
  | .const v => v == "true".toList || v == "false".toList
  | .prop v =>
    match v with
    | [] => false
    | d :: t => digitChars.contains d && t.all (fun c => alnumChars.contains c)
  | .neg f => f.valid
  | .bin _ l r => l.valid && r.valid

/-- Canonical rendering (no terminating newline). -/
def render : Formula → List Char
  | .const v => v
  | .prop v => v
  | .neg f => '(' :: '\\' :: 'n' :: 'e' :: 'g' :: ' ' :: (render f ++ [')'])
  | .bin op l r => '(' :: (op.text ++ ' ' :: (render l ++ ' ' :: (render r ++ [')'])))

/-- Connective nesting depth, a bound for the parser's recursion fuel. -/
def Formula.depth : Formula → Nat
  | .const _ => 0
  | .prop _ => 0
  | .neg f => f.depth + 1
  | .bin _ l r => max l.depth r.depth + 1

/-- The node the parser builds for a sub-formula, before `parse` wraps it in
its `FormulaNode`. -/
def toNodeInner : Formula → Node
  | .const v => .constantNode v
  | .prop v => .propositionNode v
  | .neg f => .negationFormulaNode (.formulaNode (toNodeInner f))
  | .bin .wedge l r =>
    .andFormulaNode (.formulaNode (toNodeInner l)) (.formulaNode (toNodeInner r))
  | .bin .vee l r =>
    .orFormulaNode (.formulaNode (toNodeInner l)) (.formulaNode (toNodeInner r))
  | .bin .rightarrow l r =>
    .impliesFormulaNode (.formulaNode (toNodeInner l)) (.formulaNode (toNodeInner r))
  | .bin .leftrightarrow l r =>
    .biConditionalFormulaNode (.formulaNode (toNodeInner l)) (.formulaNode (toNodeInner r))

/-- The AST `parse` produces for a formula: same connective at every node, same
constant/proposition texts, children in the same order. -/
def toNode (f : Formula) : Node := .formulaNode (toNodeInner f)

/-! ### Observation helpers

Projections of scanner results onto function-free data, so that concrete
claims are decidable (a `LexicalAnalyser` value itself contains the guard
functions of its automata). -/

/-- Observable outcome of one `get_next_token` call: the token (or the
end-of-formula signal), the cursor after the call, and the automaton states
after the call. -/
def observe (s : LexicalAnalyser) :
    Except ScanError (Option (Lexeme × List Char) × Nat × List Nat) :=
  match LexicalAnalyser.get_next_token s with
  | .error e => .error e
  | .ok (tok, s') =>
    .ok (tok, s'.next_character_position, s'.patterns.map (fun p => p.2.state))

/-- Observable outcome of one `peek_next_token` call. -/
def peekObserve (s : LexicalAnalyser) :
    Except ScanError (Option (Lexeme × List Char) × Nat × List Nat) :=
  match LexicalAnalyser.peek_next_token s with
  | .error e => .error e
  | .ok (tok, s') =>
    .ok (tok, s'.next_character_position, s'.patterns.map (fun p => p.2.state))

/-- The first two tokens of a line, each by a real `get_next_token`. -/
def tokens2 (line : List Char) :
    Except ScanError (Option (Lexeme × List Char) × Option (Lexeme × List Char)) :=
  match LexicalAnalyser.get_next_token (LexicalAnalyser.mk0 line) with
  | .error e => .error e
  | .ok (t1, s1) =>
    match LexicalAnalyser.get_next_token s1 with
    | .error e => .error e
    | .ok (t2, _) => .ok (t1, t2)

/-- A `peek_next_token` on a fresh scanner followed by a real
`get_next_token` on the scanner the peek left behind. -/
def peekThenGet (line : List Char) :
    Except ScanError (Option (Lexeme × List Char) × Option (Lexeme × List Char)) :=
  match LexicalAnalyser.peek_next_token (LexicalAnalyser.mk0 line) with
  | .error e => .error e
  | .ok (t1, s1) =>
    match LexicalAnalyser.get_next_token s1 with
    | .error e => .error e
    | .ok (t2, _) => .ok (t1, t2)

/-- The immutable part of an automaton (everything but the current state). -/
def DeterministicFiniteAutomata.defn (d : DeterministicFiniteAutomata) :
    List Transition × Nat × List Nat :=
  (d.transactions, d.initial_state, d.final_states)

/-- The immutable part of a pattern table entry. -/
def lexDefn (p : Lexeme × DeterministicFiniteAutomata) :
    Lexeme × List Transition × Nat × List Nat :=
  (p.1, p.2.defn)

/-- Two transition rules never both accept an alphabet symbol from the same
source state. -/
def guardsDisjoint (t1 t2 : Transition) : Bool :=
  !(t1.1 == t2.1) || ALPHABET.all (fun c => !(t1.2.1 c && t2.2.1 c))

/-- The pattern table with the six automata in their table order, each at a
given current state.  `build_patterns = patternsAt 0 0 0 0 0 0` definitionally;
this is how intermediate scanner configurations are written in proofs. -/
def patternsAt (s1 s2 s3 s4 s5 s6 : Nat) : List (Lexeme × DeterministicFiniteAutomata) :=
  [ (Lexeme.CONSTANT, ⟨constantTransactions, 0, [4, 10], s1⟩),
    (Lexeme.PROPOSITION, ⟨propositionTransactions, 0, [1], s2⟩),
    (Lexeme.OPEN_PARENTHESIS, ⟨openParenthesisTransactions, 0, [1], s3⟩),
    (Lexeme.CLOSE_PARENTHESIS, ⟨closeParenthesisTransactions, 0, [1], s4⟩),
    (Lexeme.UNARY_OPERATOR, ⟨unaryOperatorTransactions, 0, [4], s5⟩),
    (Lexeme.BINARY_OPERATOR, ⟨binaryOperatorTransactions, 0, [6, 9, 19, 33], s6⟩) ]

/-- The same scanner with the cursor moved. -/
def LexicalAnalyser.atPos (s : LexicalAnalyser) (p : Nat) : LexicalAnalyser :=
  { s with next_character_position := p }

/-- The state an automaton moves to on a symbol: destination of the first
matching rule, or the current state when no rule matches (stall). -/
def stepOf (ts : List Transition) (s : Nat) (c : Char) : Nat :=
  (DeterministicFiniteAutomata.findTransition ts s c).getD s

/-! ## Theorems

First a toolbox of single-step lemmas about the scanner loops (stepping one
character at a time keeps every proof obligation small), then the claims. -/

open DeterministicFiniteAutomata LexicalAnalyser

theorem execute_eq (d : DeterministicFiniteAutomata) (c : Char)
    (hc : ALPHABET.contains c = true) :
    d.execute c = .ok { d with state := stepOf d.transactions d.state c } := by
  unfold DeterministicFiniteAutomata.execute stepOf
  rw [hc]
  cases h : findTransition d.transactions d.state c <;> simp [h]

theorem execute_error (d : DeterministicFiniteAutomata) (c : Char)
    (hc : ALPHABET.contains c = false) :
    d.execute c = .error (.alphabetError c) := by
  unfold DeterministicFiniteAutomata.execute
  rw [hc]
  simp

theorem scanLoop_cons_none (ps ps' : List (Lexeme × DeterministicFiniteAutomata))
    (c : Char) (rest w : List Char) (n : Nat)
    (hnl : (c == '\n') = false)
    (h : runPatterns ps c.toLower = .ok (ps', none)) :
    scanLoop ps (c :: rest) w n = scanLoop ps' rest (w ++ [c.toLower]) (n + 1) := by
  simp only [scanLoop, hnl, h]
  simp

theorem scanLoop_cons_fired (ps ps' : List (Lexeme × DeterministicFiniteAutomata))
    (c : Char) (rest w : List Char) (n : Nat) (lex : Lexeme)
    (dfa : DeterministicFiniteAutomata)
    (hnl : (c == '\n') = false)
    (h : runPatterns ps c.toLower = .ok (ps', some (lex, dfa))) :
    scanLoop ps (c :: rest) w n =
      match munch dfa rest (w ++ [c.toLower]) (n + 1) with
      | .error e => .error e
      | .ok (_, w', n') => .ok (some (lex, w'), reset_dfas ps', n') := by
  simp only [scanLoop, hnl, h]
  simp

theorem munch_cons_extend (dfa d' : DeterministicFiniteAutomata) (c : Char)
    (rest w : List Char) (n : Nat)
    (hfin : dfa.in_final_state = true)
    (hnl : (c == '\n') = false)
    (hex : dfa.execute c.toLower = .ok d')
    (hfin' : d'.in_final_state = true) :
    munch dfa (c :: rest) w n = munch d' rest (w ++ [c.toLower]) (n + 1) := by
  simp only [munch, hfin, hnl, hex, hfin']
  simp

theorem munch_cons_stop (dfa d' : DeterministicFiniteAutomata) (c : Char)
    (rest w : List Char) (n : Nat)
    (hfin : dfa.in_final_state = true)
    (hnl : (c == '\n') = false)
    (hex : dfa.execute c.toLower = .ok d')
    (hfin' : d'.in_final_state = false) :
    munch dfa (c :: rest) w n = .ok (d', w, n) := by
  simp only [munch, hfin, hnl, hex, hfin']
  simp

theorem munch_newline (dfa : DeterministicFiniteAutomata) (rest w : List Char) (n : Nat)
    (hfin : dfa.in_final_state = true) :
    munch dfa ('\n' :: rest) w n = .ok (dfa, w, n) := by
  simp only [munch, hfin]
  rfl

theorem munch_nil (dfa : DeterministicFiniteAutomata) (w : List Char) (n : Nat)
    (hfin : dfa.in_final_state = true) :
    munch dfa [] w n = .error .indexError := by
  simp only [munch, hfin]
  simp


/-! ### Character-class facts -/

theorem ne_newline_of_alphabet (b : Char) (hb : ALPHABET.contains b.toLower = true) :
    (b == '\n') = false := by
  by_cases h : b = '\n'
  · subst h; exact absurd hb (by decide)
  · exact beq_eq_false_iff_ne.mpr h

theorem alnum_mem (c : Char) (hc : alnumChars.contains c = true) : c ∈ alnumChars := by
  simpa using hc

theorem alnum_toLower (c : Char) (hc : alnumChars.contains c = true) : c.toLower = c := by
  have h' := alnum_mem c hc
  fin_cases h' <;> rfl

theorem alnum_ne_newline (c : Char) (hc : alnumChars.contains c = true) :
    (c == '\n') = false := by
  have h' := alnum_mem c hc
  fin_cases h' <;> rfl

theorem alnum_in_alphabet (c : Char) (hc : alnumChars.contains c = true) :
    ALPHABET.contains c = true := by
  have h' := alnum_mem c hc
  fin_cases h' <;> rfl

theorem digit_alnum (d : Char) (hd : digitChars.contains d = true) :
    alnumChars.contains d = true := by
  have h' : d ∈ digitChars := by simpa using hd
  fin_cases h' <;> rfl

theorem digit_not_tf (d : Char) (hd : digitChars.contains d = true) :
    ("tf".toList.contains d) = false := by
  have h' : d ∈ digitChars := by simpa using hd
  fin_cases h' <;> rfl

theorem boundary_spec (b : Char) (hb : b = ' ' ∨ b = ')' ∨ b = '\n') :
    b = '\n' ∨ ALPHABET.contains b.toLower = true := by
  rcases hb with rfl | rfl | rfl
  · right; rfl
  · right; rfl
  · left; rfl

/-- Exit step of the maximal munch for an automaton whose current (final) state
leaves on every symbol to the dead state 999: the boundary character is
inspected but not consumed. -/
theorem munch_true_guard_exit (dfa : DeterministicFiniteAutomata) (stExit : Nat)
    (b : Char) (r2 w : List Char) (n : Nat)
    (hfin : dfa.in_final_state = true)
    (hstall : ∀ x, stepOf dfa.transactions dfa.state x = stExit)
    (hdead : dfa.final_states.contains stExit = false)
    (hb : b = '\n' ∨ ALPHABET.contains b.toLower = true) :
    ∃ d', munch dfa (b :: r2) w n = .ok (d', w, n) := by
  rcases hb with hb | hb
  · subst hb; exact ⟨dfa, munch_newline dfa r2 w n hfin⟩
  · refine ⟨{ dfa with state := stExit }, ?_⟩
    have hex : dfa.execute b.toLower = .ok { dfa with state := stExit } := by
      rw [execute_eq _ _ hb, hstall]
    exact munch_cons_stop dfa _ b r2 w n hfin (ne_newline_of_alphabet b hb) hex
      (by simpa [DeterministicFiniteAutomata.in_final_state] using hdead)

/-! ### Scanning each fixed token of the grammar -/

/-- `get_next_token`'s scan of the token `(` followed by any boundary
character: the automata run in lockstep over the literal and the munch stops
at the boundary. -/
theorem scanLoop_open (b : Char) (r2 : List Char)
    (hb : b = '\n' ∨ ALPHABET.contains b.toLower = true) :
    scanLoop build_patterns ('(' :: b :: r2) [] 0 =
      .ok (some (Lexeme.OPEN_PARENTHESIS, ['(']), build_patterns, 1) := by
  rw [show build_patterns = patternsAt 0 0 0 0 0 0 from rfl]
  rw [scanLoop_cons_fired (patternsAt 0 0 0 0 0 0) (patternsAt 999 999 1 0 0 0) '(' _ _ _ Lexeme.OPEN_PARENTHESIS
    ⟨openParenthesisTransactions, 0, [1], 1⟩ rfl rfl]
  obtain ⟨d', hm⟩ := munch_true_guard_exit ⟨openParenthesisTransactions, 0, [1], 1⟩ 999 b r2 _ _
    rfl (fun _ => rfl) rfl hb
  rw [hm]
  rfl

/-- `get_next_token`'s scan of the token `)` followed by any boundary
character: the automata run in lockstep over the literal and the munch stops
at the boundary. -/
theorem scanLoop_close (b : Char) (r2 : List Char)
    (hb : b = '\n' ∨ ALPHABET.contains b.toLower = true) :
    scanLoop build_patterns (')' :: b :: r2) [] 0 =
      .ok (some (Lexeme.CLOSE_PARENTHESIS, [')']), build_patterns, 1) := by
  rw [show build_patterns = patternsAt 0 0 0 0 0 0 from rfl]
  rw [scanLoop_cons_fired (patternsAt 0 0 0 0 0 0) (patternsAt 999 999 999 1 0 0) ')' _ _ _ Lexeme.CLOSE_PARENTHESIS
    ⟨closeParenthesisTransactions, 0, [1], 1⟩ rfl rfl]
  obtain ⟨d', hm⟩ := munch_true_guard_exit ⟨closeParenthesisTransactions, 0, [1], 1⟩ 999 b r2 _ _
    rfl (fun _ => rfl) rfl hb
  rw [hm]
  rfl

/-- `get_next_token`'s scan of the token `true` followed by any boundary
character: the automata run in lockstep over the literal and the munch stops
at the boundary. -/
theorem scanLoop_true (b : Char) (r2 : List Char)
    (hb : b = '\n' ∨ ALPHABET.contains b.toLower = true) :
    scanLoop build_patterns ('t' :: 'r' :: 'u' :: 'e' :: b :: r2) [] 0 =
      .ok (some (Lexeme.CONSTANT, ['t', 'r', 'u', 'e']), build_patterns, 4) := by
  rw [show build_patterns = patternsAt 0 0 0 0 0 0 from rfl]
  rw [scanLoop_cons_none (patternsAt 0 0 0 0 0 0) (patternsAt 1 0 999 999 999 999) 't' _ _ _ rfl rfl]
  rw [scanLoop_cons_none (patternsAt 1 0 999 999 999 999) (patternsAt 2 0 999 999 999 999) 'r' _ _ _ rfl rfl]
  rw [scanLoop_cons_none (patternsAt 2 0 999 999 999 999) (patternsAt 3 0 999 999 999 999) 'u' _ _ _ rfl rfl]
  rw [scanLoop_cons_fired (patternsAt 3 0 999 999 999 999) (patternsAt 4 0 999 999 999 999) 'e' _ _ _ Lexeme.CONSTANT
    ⟨constantTransactions, 0, [4, 10], 4⟩ rfl rfl]
  obtain ⟨d', hm⟩ := munch_true_guard_exit ⟨constantTransactions, 0, [4, 10], 4⟩ 5 b r2 _ _
    rfl (fun _ => rfl) rfl hb
  rw [hm]
  rfl

/-- `get_next_token`'s scan of the token `false` followed by any boundary
character: the automata run in lockstep over the literal and the munch stops
at the boundary. -/
theorem scanLoop_false (b : Char) (r2 : List Char)
    (hb : b = '\n' ∨ ALPHABET.contains b.toLower = true) :
    scanLoop build_patterns ('f' :: 'a' :: 'l' :: 's' :: 'e' :: b :: r2) [] 0 =
      .ok (some (Lexeme.CONSTANT, ['f', 'a', 'l', 's', 'e']), build_patterns, 5) := by
  rw [show build_patterns = patternsAt 0 0 0 0 0 0 from rfl]
  rw [scanLoop_cons_none (patternsAt 0 0 0 0 0 0) (patternsAt 6 0 999 999 999 999) 'f' _ _ _ rfl rfl]
  rw [scanLoop_cons_none (patternsAt 6 0 999 999 999 999) (patternsAt 7 0 999 999 999 999) 'a' _ _ _ rfl rfl]
  rw [scanLoop_cons_none (patternsAt 7 0 999 999 999 999) (patternsAt 8 0 999 999 999 999) 'l' _ _ _ rfl rfl]
  rw [scanLoop_cons_none (patternsAt 8 0 999 999 999 999) (patternsAt 9 0 999 999 999 999) 's' _ _ _ rfl rfl]
  rw [scanLoop_cons_fired (patternsAt 9 0 999 999 999 999) (patternsAt 10 0 999 999 999 999) 'e' _ _ _ Lexeme.CONSTANT
    ⟨constantTransactions, 0, [4, 10], 10⟩ rfl rfl]
  obtain ⟨d', hm⟩ := munch_true_guard_exit ⟨constantTransactions, 0, [4, 10], 10⟩ 11 b r2 _ _
    rfl (fun _ => rfl) rfl hb
  rw [hm]
  rfl

/-- `get_next_token`'s scan of the token `\neg` followed by any boundary
character: the automata run in lockstep over the literal and the munch stops
at the boundary. -/
theorem scanLoop_neg (b : Char) (r2 : List Char)
    (hb : b = '\n' ∨ ALPHABET.contains b.toLower = true) :
    scanLoop build_patterns ('\\' :: 'n' :: 'e' :: 'g' :: b :: r2) [] 0 =
      .ok (some (Lexeme.UNARY_OPERATOR, ['\\', 'n', 'e', 'g']), build_patterns, 4) := by
  rw [show build_patterns = patternsAt 0 0 0 0 0 0 from rfl]
  rw [scanLoop_cons_none (patternsAt 0 0 0 0 0 0) (patternsAt 999 999 999 999 1 1) '\\' _ _ _ rfl rfl]
  rw [scanLoop_cons_none (patternsAt 999 999 999 999 1 1) (patternsAt 999 999 999 999 2 1) 'n' _ _ _ rfl rfl]
  rw [scanLoop_cons_none (patternsAt 999 999 999 999 2 1) (patternsAt 999 999 999 999 3 1) 'e' _ _ _ rfl rfl]
  rw [scanLoop_cons_fired (patternsAt 999 999 999 999 3 1) (patternsAt 999 999 999 999 4 1) 'g' _ _ _ Lexeme.UNARY_OPERATOR
    ⟨unaryOperatorTransactions, 0, [4], 4⟩ rfl rfl]
  obtain ⟨d', hm⟩ := munch_true_guard_exit ⟨unaryOperatorTransactions, 0, [4], 4⟩ 999 b r2 _ _
    rfl (fun _ => rfl) rfl hb
  rw [hm]
  rfl

/-- `get_next_token`'s scan of the token `\wedge` followed by any boundary
character: the automata run in lockstep over the literal and the munch stops
at the boundary. -/
theorem scanLoop_wedge (b : Char) (r2 : List Char)
    (hb : b = '\n' ∨ ALPHABET.contains b.toLower = true) :
    scanLoop build_patterns ('\\' :: 'w' :: 'e' :: 'd' :: 'g' :: 'e' :: b :: r2) [] 0 =
      .ok (some (Lexeme.BINARY_OPERATOR, ['\\', 'w', 'e', 'd', 'g', 'e']), build_patterns, 6) := by
  rw [show build_patterns = patternsAt 0 0 0 0 0 0 from rfl]
  rw [scanLoop_cons_none (patternsAt 0 0 0 0 0 0) (patternsAt 999 999 999 999 1 1) '\\' _ _ _ rfl rfl]
  rw [scanLoop_cons_none (patternsAt 999 999 999 999 1 1) (patternsAt 999 999 999 999 1 2) 'w' _ _ _ rfl rfl]
  rw [scanLoop_cons_none (patternsAt 999 999 999 999 1 2) (patternsAt 999 999 999 999 1 3) 'e' _ _ _ rfl rfl]
  rw [scanLoop_cons_none (patternsAt 999 999 999 999 1 3) (patternsAt 999 999 999 999 1 4) 'd' _ _ _ rfl rfl]
  rw [scanLoop_cons_none (patternsAt 999 999 999 999 1 4) (patternsAt 999 999 999 999 1 5) 'g' _ _ _ rfl rfl]
  rw [scanLoop_cons_fired (patternsAt 999 999 999 999 1 5) (patternsAt 999 999 999 999 1 6) 'e' _ _ _ Lexeme.BINARY_OPERATOR
    ⟨binaryOperatorTransactions, 0, [6, 9, 19, 33], 6⟩ rfl rfl]
  obtain ⟨d', hm⟩ := munch_true_guard_exit ⟨binaryOperatorTransactions, 0, [6, 9, 19, 33], 6⟩ 999 b r2 _ _
    rfl (fun _ => rfl) rfl hb
  rw [hm]
  rfl

/-- `get_next_token`'s scan of the token `\vee` followed by any boundary
character: the automata run in lockstep over the literal and the munch stops
at the boundary. -/
theorem scanLoop_vee (b : Char) (r2 : List Char)
    (hb : b = '\n' ∨ ALPHABET.contains b.toLower = true) :
    scanLoop build_patterns ('\\' :: 'v' :: 'e' :: 'e' :: b :: r2) [] 0 =
      .ok (some (Lexeme.BINARY_OPERATOR, ['\\', 'v', 'e', 'e']), build_patterns, 4) := by
  rw [show build_patterns = patternsAt 0 0 0 0 0 0 from rfl]
  rw [scanLoop_cons_none (patternsAt 0 0 0 0 0 0) (patternsAt 999 999 999 999 1 1) '\\' _ _ _ rfl rfl]
  rw [scanLoop_cons_none (patternsAt 999 999 999 999 1 1) (patternsAt 999 999 999 999 1 7) 'v' _ _ _ rfl rfl]
  rw [scanLoop_cons_none (patternsAt 999 999 999 999 1 7) (patternsAt 999 999 999 999 1 8) 'e' _ _ _ rfl rfl]
  rw [scanLoop_cons_fired (patternsAt 999 999 999 999 1 8) (patternsAt 999 999 999 999 1 9) 'e' _ _ _ Lexeme.BINARY_OPERATOR
    ⟨binaryOperatorTransactions, 0, [6, 9, 19, 33], 9⟩ rfl rfl]
  obtain ⟨d', hm⟩ := munch_true_guard_exit ⟨binaryOperatorTransactions, 0, [6, 9, 19, 33], 9⟩ 999 b r2 _ _
    rfl (fun _ => rfl) rfl hb
  rw [hm]
  rfl

/-- `get_next_token`'s scan of the token `\rightarrow` followed by any boundary
character: the automata run in lockstep over the literal and the munch stops
at the boundary. -/
theorem scanLoop_rightarrow (b : Char) (r2 : List Char)
    (hb : b = '\n' ∨ ALPHABET.contains b.toLower = true) :
    scanLoop build_patterns ('\\' :: 'r' :: 'i' :: 'g' :: 'h' :: 't' :: 'a' :: 'r' :: 'r' :: 'o' :: 'w' :: b :: r2) [] 0 =
      .ok (some (Lexeme.BINARY_OPERATOR, ['\\', 'r', 'i', 'g', 'h', 't', 'a', 'r', 'r', 'o', 'w']), build_patterns, 11) := by
  rw [show build_patterns = patternsAt 0 0 0 0 0 0 from rfl]
  rw [scanLoop_cons_none (patternsAt 0 0 0 0 0 0) (patternsAt 999 999 999 999 1 1) '\\' _ _ _ rfl rfl]
  rw [scanLoop_cons_none (patternsAt 999 999 999 999 1 1) (patternsAt 999 999 999 999 1 10) 'r' _ _ _ rfl rfl]
  rw [scanLoop_cons_none (patternsAt 999 999 999 999 1 10) (patternsAt 999 999 999 999 1 11) 'i' _ _ _ rfl rfl]
  rw [scanLoop_cons_none (patternsAt 999 999 999 999 1 11) (patternsAt 999 999 999 999 1 12) 'g' _ _ _ rfl rfl]
  rw [scanLoop_cons_none (patternsAt 999 999 999 999 1 12) (patternsAt 999 999 999 999 1 13) 'h' _ _ _ rfl rfl]
  rw [scanLoop_cons_none (patternsAt 999 999 999 999 1 13) (patternsAt 999 999 999 999 1 14) 't' _ _ _ rfl rfl]
  rw [scanLoop_cons_none (patternsAt 999 999 999 999 1 14) (patternsAt 999 999 999 999 1 15) 'a' _ _ _ rfl rfl]
  rw [scanLoop_cons_none (patternsAt 999 999 999 999 1 15) (patternsAt 999 999 999 999 1 16) 'r' _ _ _ rfl rfl]
  rw [scanLoop_cons_none (patternsAt 999 999 999 999 1 16) (patternsAt 999 999 999 999 1 17) 'r' _ _ _ rfl rfl]
  rw [scanLoop_cons_none (patternsAt 999 999 999 999 1 17) (patternsAt 999 999 999 999 1 18) 'o' _ _ _ rfl rfl]
  rw [scanLoop_cons_fired (patternsAt 999 999 999 999 1 18) (patternsAt 999 999 999 999 1 19) 'w' _ _ _ Lexeme.BINARY_OPERATOR
    ⟨binaryOperatorTransactions, 0, [6, 9, 19, 33], 19⟩ rfl rfl]
  obtain ⟨d', hm⟩ := munch_true_guard_exit ⟨binaryOperatorTransactions, 0, [6, 9, 19, 33], 19⟩ 999 b r2 _ _
    rfl (fun _ => rfl) rfl hb
  rw [hm]
  rfl

/-- `get_next_token`'s scan of the token `\leftrightarrow` followed by any boundary
character: the automata run in lockstep over the literal and the munch stops
at the boundary. -/
theorem scanLoop_leftrightarrow (b : Char) (r2 : List Char)
    (hb : b = '\n' ∨ ALPHABET.contains b.toLower = true) :
    scanLoop build_patterns ('\\' :: 'l' :: 'e' :: 'f' :: 't' :: 'r' :: 'i' :: 'g' :: 'h' :: 't' :: 'a' :: 'r' :: 'r' :: 'o' :: 'w' :: b :: r2) [] 0 =
      .ok (some (Lexeme.BINARY_OPERATOR, ['\\', 'l', 'e', 'f', 't', 'r', 'i', 'g', 'h', 't', 'a', 'r', 'r', 'o', 'w']), build_patterns, 15) := by
  rw [show build_patterns = patternsAt 0 0 0 0 0 0 from rfl]
  rw [scanLoop_cons_none (patternsAt 0 0 0 0 0 0) (patternsAt 999 999 999 999 1 1) '\\' _ _ _ rfl rfl]
  rw [scanLoop_cons_none (patternsAt 999 999 999 999 1 1) (patternsAt 999 999 999 999 1 20) 'l' _ _ _ rfl rfl]
  rw [scanLoop_cons_none (patternsAt 999 999 999 999 1 20) (patternsAt 999 999 999 999 1 21) 'e' _ _ _ rfl rfl]
  rw [scanLoop_cons_none (patternsAt 999 999 999 999 1 21) (patternsAt 999 999 999 999 1 22) 'f' _ _ _ rfl rfl]
  rw [scanLoop_cons_none (patternsAt 999 999 999 999 1 22) (patternsAt 999 999 999 999 1 23) 't' _ _ _ rfl rfl]
  rw [scanLoop_cons_none (patternsAt 999 999 999 999 1 23) (patternsAt 999 999 999 999 1 24) 'r' _ _ _ rfl rfl]
  rw [scanLoop_cons_none (patternsAt 999 999 999 999 1 24) (patternsAt 999 999 999 999 1 25) 'i' _ _ _ rfl rfl]
  rw [scanLoop_cons_none (patternsAt 999 999 999 999 1 25) (patternsAt 999 999 999 999 1 26) 'g' _ _ _ rfl rfl]
  rw [scanLoop_cons_none (patternsAt 999 999 999 999 1 26) (patternsAt 999 999 999 999 1 27) 'h' _ _ _ rfl rfl]
  rw [scanLoop_cons_none (patternsAt 999 999 999 999 1 27) (patternsAt 999 999 999 999 1 28) 't' _ _ _ rfl rfl]
  rw [scanLoop_cons_none (patternsAt 999 999 999 999 1 28) (patternsAt 999 999 999 999 1 29) 'a' _ _ _ rfl rfl]
  rw [scanLoop_cons_none (patternsAt 999 999 999 999 1 29) (patternsAt 999 999 999 999 1 30) 'r' _ _ _ rfl rfl]
  rw [scanLoop_cons_none (patternsAt 999 999 999 999 1 30) (patternsAt 999 999 999 999 1 31) 'r' _ _ _ rfl rfl]
  rw [scanLoop_cons_none (patternsAt 999 999 999 999 1 31) (patternsAt 999 999 999 999 1 32) 'o' _ _ _ rfl rfl]
  rw [scanLoop_cons_fired (patternsAt 999 999 999 999 1 32) (patternsAt 999 999 999 999 1 33) 'w' _ _ _ Lexeme.BINARY_OPERATOR
    ⟨binaryOperatorTransactions, 0, [6, 9, 19, 33], 33⟩ rfl rfl]
  obtain ⟨d', hm⟩ := munch_true_guard_exit ⟨binaryOperatorTransactions, 0, [6, 9, 19, 33], 33⟩ 999 b r2 _ _
    rfl (fun _ => rfl) rfl hb
  rw [hm]
  rfl


/-! ### Scanning a proposition token -/

theorem findTransition_cons_true (src : Nat) (guard : Char → Bool) (dst : Nat)
    (rest : List Transition) (s : Nat) (c : Char)
    (h : (src == s && guard c) = true) :
    findTransition ((src, guard, dst) :: rest) s c = some dst := by
  simp only [findTransition, h, if_true]

theorem findTransition_cons_false (src : Nat) (guard : Char → Bool) (dst : Nat)
    (rest : List Transition) (s : Nat) (c : Char)
    (h : (src == s && guard c) = false) :
    findTransition ((src, guard, dst) :: rest) s c = findTransition rest s c := by
  simp only [findTransition, h]
  simp

theorem findTransition_prop_one (c : Char) (hc : alnumChars.contains c = true) :
    findTransition propositionTransactions 1 c = some 1 := by
  have h : ("abcdefghijklmnopqrstuvwxyz0123456789".toList.contains c) = true := hc
  show findTransition
    [ ((0 : Nat), fun x => "0123456789".toList.contains x, (1 : Nat)),
      (0, fun x => !("abcdefghijklmnopqrstuvwxyz0123456789".toList.contains x), 999),
      (1, fun x => "abcdefghijklmnopqrstuvwxyz0123456789".toList.contains x, 1),
      (1, fun x => !("abcdefghijklmnopqrstuvwxyz0123456789".toList.contains x), 999) ] 1 c = some 1
  rw [findTransition_cons_false _ _ _ _ _ _ (by simp)]
  rw [findTransition_cons_false _ _ _ _ _ _ (by simp)]
  rw [findTransition_cons_true _ _ _ _ _ _ (by simp only [beq_self_eq_true, Bool.true_and]; exact h)]

theorem execute_prop_one (c : Char) (hc : alnumChars.contains c = true) :
    (⟨propositionTransactions, 0, [1], 1⟩ : DeterministicFiniteAutomata).execute c =
      .ok ⟨propositionTransactions, 0, [1], 1⟩ := by
  rw [execute_eq _ _ (alnum_in_alphabet c hc)]
  simp [stepOf, findTransition_prop_one c hc]

/-- The maximal munch of a proposition extends over the alphanumeric tail and
stops at the boundary character. -/
theorem munch_prop (t : List Char) : ∀ (b : Char) (r2 w : List Char) (n : Nat),
    t.all (fun c => alnumChars.contains c) = true →
    (b = ' ' ∨ b = ')' ∨ b = '\n') →
    ∃ d', munch ⟨propositionTransactions, 0, [1], 1⟩ (t ++ b :: r2) w n =
      .ok (d', w ++ t, n + t.length) := by
  induction t with
  | nil =>
    intro b r2 w n _ hb
    simp only [List.nil_append, List.append_nil, List.length_nil, Nat.add_zero]
    rcases hb with rfl | rfl | rfl
    · exact ⟨⟨propositionTransactions, 0, [1], 999⟩,
        munch_cons_stop _ _ ' ' r2 w n rfl rfl rfl rfl⟩
    · exact ⟨⟨propositionTransactions, 0, [1], 999⟩,
        munch_cons_stop _ _ ')' r2 w n rfl rfl rfl rfl⟩
    · exact ⟨_, munch_newline _ r2 w n rfl⟩
  | cons c t' ih =>
    intro b r2 w n hall hb
    simp only [List.all_cons, Bool.and_eq_true] at hall
    obtain ⟨hc, ht'⟩ := hall
    have hlow := alnum_toLower c hc
    have hstep : munch ⟨propositionTransactions, 0, [1], 1⟩ ((c :: t') ++ b :: r2) w n =
        munch ⟨propositionTransactions, 0, [1], 1⟩ (t' ++ b :: r2) (w ++ [c]) (n + 1) := by
      have h := munch_cons_extend ⟨propositionTransactions, 0, [1], 1⟩
        ⟨propositionTransactions, 0, [1], 1⟩ c (t' ++ b :: r2) w n rfl
        (alnum_ne_newline c hc) (by rw [hlow]; exact execute_prop_one c hc) rfl
      rw [hlow] at h
      exact h
    rw [hstep]
    obtain ⟨d', hm⟩ := ih b r2 (w ++ [c]) (n + 1) ht' hb
    refine ⟨d', ?_⟩
    rw [hm]
    have h1 : (w ++ [c]) ++ t' = w ++ c :: t' := by simp
    have h2 : n + 1 + t'.length = n + (c :: t').length := by
      simp only [List.length_cons]; omega
    rw [h1, h2]

/-- `get_next_token`'s scan of a proposition token `d :: t` (digit then
alphanumerics) followed by a boundary character. -/
theorem scanLoop_prop (d : Char) (t : List Char) (b : Char) (r2 : List Char)
    (hd : digitChars.contains d = true)
    (ht : t.all (fun c => alnumChars.contains c) = true)
    (hb : b = ' ' ∨ b = ')' ∨ b = '\n') :
    scanLoop build_patterns (d :: (t ++ b :: r2)) [] 0 =
      .ok (some (Lexeme.PROPOSITION, d :: t), build_patterns, 1 + t.length) := by
  have hlow := alnum_toLower d (digit_alnum d hd)
  have hnl := alnum_ne_newline d (digit_alnum d hd)
  have f1 : findTransition constantTransactions 0 d = some 999 := by
    have h1 : ("tf".toList.contains d) = false := digit_not_tf d hd
    simp only [constantTransactions]
    rw [findTransition_cons_true _ _ _ _ _ _
      (by simp only [beq_self_eq_true, Bool.true_and]; rw [h1]; rfl)]
  have e1 : (⟨constantTransactions, 0, [4, 10], (0 : Nat)⟩ : DeterministicFiniteAutomata).execute d =
      .ok ⟨constantTransactions, 0, [4, 10], 999⟩ := by
    rw [execute_eq _ _ (alnum_in_alphabet d (digit_alnum d hd))]
    simp [stepOf, f1]
  have f2 : findTransition propositionTransactions 0 d = some 1 := by
    have h1 : ("0123456789".toList.contains d) = true := hd
    simp only [propositionTransactions]
    rw [findTransition_cons_true _ _ _ _ _ _
      (by simp only [beq_self_eq_true, Bool.true_and]; exact h1)]
  have e2 : (⟨propositionTransactions, 0, [1], (0 : Nat)⟩ : DeterministicFiniteAutomata).execute d =
      .ok ⟨propositionTransactions, 0, [1], 1⟩ := by
    rw [execute_eq _ _ (alnum_in_alphabet d (digit_alnum d hd))]
    simp [stepOf, f2]
  have hrp : runPatterns (patternsAt 0 0 0 0 0 0) d =
      .ok (patternsAt 999 1 0 0 0 0,
           some (Lexeme.PROPOSITION, ⟨propositionTransactions, 0, [1], 1⟩)) := by
    simp only [patternsAt, runPatterns, e1, e2]
    simp [DeterministicFiniteAutomata.in_final_state, patternsAt]
  rw [show build_patterns = patternsAt 0 0 0 0 0 0 from rfl]
  rw [scanLoop_cons_fired (patternsAt 0 0 0 0 0 0) (patternsAt 999 1 0 0 0 0) d _ _ _
    Lexeme.PROPOSITION ⟨propositionTransactions, 0, [1], 1⟩ hnl
    (by rw [hlow]; exact hrp)]
  obtain ⟨d', hm⟩ := munch_prop t b r2 ([] ++ [d.toLower]) (0 + 1) ht hb
  rw [hm, hlow]
  have h1 : ([] ++ [d]) ++ t = d :: t := by simp
  have h2 : 0 + 1 + t.length = 1 + t.length := by omega
  rw [h1, h2]
  rfl


/-! ### From the scan loop to `get_next_token`, lookahead, and the token consumers -/

theorem get?_eq_head_drop (l : List Char) (p : Nat) : l.get? p = (l.drop p).head? := by
  rw [List.head?_drop, List.get?_eq_getElem?]

theorem drop_add_of_drop_eq (l pre suf : List Char) (p m : Nat)
    (h : l.drop p = pre ++ suf) (hm : m = pre.length) :
    l.drop (p + m) = suf := by
  subst hm
  rw [← List.drop_drop, h, List.drop_left]

theorem update_patterns_self (s : LexicalAnalyser) (p : Nat) :
    ({ s with patterns := s.patterns, next_character_position := p } : LexicalAnalyser) =
      s.atPos p := rfl

/-- `get_next_token` on a scanner whose table is fresh and whose remaining
content starts (after at most one separator) with a scan that produces a token:
the token is returned and the cursor advances over the separator and the
consumed characters. -/
theorem get_next_token_token (s : LexicalAnalyser) (sp : Nat) (c0 : Char)
    (rem : List Char) (lex : Lexeme) (w : List Char) (k : Nat)
    (hp : s.patterns = build_patterns)
    (hsp : sp = 0 ∨ sp = 1)
    (hc : s.content.drop s.next_character_position = List.replicate sp ' ' ++ c0 :: rem)
    (h0 : (c0.toLower == ' ') = false)
    (hscan : scanLoop build_patterns (c0 :: rem) [] 0 = .ok (some (lex, w), build_patterns, k)) :
    get_next_token s = .ok (some (lex, w), s.atPos (s.next_character_position + sp + k)) := by
  rcases hsp with rfl | rfl
  · have hc' : s.content.drop s.next_character_position = c0 :: rem := by simpa using hc
    have hget : s.content.get? s.next_character_position = some c0 := by
      rw [get?_eq_head_drop, hc']; rfl
    have hdrop : s.content.drop (s.next_character_position + 0) = c0 :: rem := by
      simpa using hc'
    unfold get_next_token
    rw [hget]
    simp only [h0, if_false, Bool.false_eq_true]
    rw [hp, hdrop, hscan, ← hp]
    rfl
  · have hc' : s.content.drop s.next_character_position = ' ' :: (c0 :: rem) := by
      simpa using hc
    have hget : s.content.get? s.next_character_position = some ' ' := by
      rw [get?_eq_head_drop, hc']; rfl
    have hdrop : s.content.drop (s.next_character_position + 1) = c0 :: rem :=
      drop_add_of_drop_eq _ [' '] _ _ _ hc' rfl
    unfold get_next_token
    rw [hget]
    simp only [show ((' ' : Char).toLower == ' ') = true from rfl, if_true]
    rw [hp, hdrop, hscan, ← hp]
    rfl

theorem peek_next_token_of_get (s : LexicalAnalyser) (tok : Option (Lexeme × List Char))
    (p : Nat) (h : get_next_token s = .ok (tok, s.atPos p)) :
    peek_next_token s = .ok (tok, s) := by
  unfold peek_next_token
  rw [h]
  rfl

theorem peek_peek_next_token_of_gets (s : LexicalAnalyser)
    (tok1 : Option (Lexeme × List Char)) (p1 : Nat)
    (tok2 : Option (Lexeme × List Char)) (p2 : Nat)
    (h1 : get_next_token s = .ok (tok1, s.atPos p1))
    (h2 : get_next_token (s.atPos p1) = .ok (tok2, (s.atPos p1).atPos p2)) :
    peek_peek_next_token s = .ok (tok2, s) := by
  unfold peek_peek_next_token
  rw [h1]
  show (match (s.atPos p1).get_next_token with
        | Except.error e => Except.error e
        | Except.ok (tok, s2) =>
          Except.ok (tok, ({ patterns := s2.patterns, content := s.content,
                             next_character_position := s.next_character_position } :
                            LexicalAnalyser))) = _
  rw [h2]
  rfl

theorem parse_constant_of (s s' : LexicalAnalyser) (w : List Char)
    (h : get_next_token s = .ok (some (Lexeme.CONSTANT, w), s')) :
    Parser.parse_constant s = .ok (.constantNode w, s') := by
  unfold Parser.parse_constant
  rw [h]
  rfl

theorem parse_proposition_of (s s' : LexicalAnalyser) (w : List Char)
    (h : get_next_token s = .ok (some (Lexeme.PROPOSITION, w), s')) :
    Parser.parse_proposition s = .ok (.propositionNode w, s') := by
  unfold Parser.parse_proposition
  rw [h]
  rfl

theorem parse_open_parenthesis_of (s s' : LexicalAnalyser) (w : List Char)
    (h : get_next_token s = .ok (some (Lexeme.OPEN_PARENTHESIS, w), s')) :
    Parser.parse_open_parenthesis s = .ok s' := by
  unfold Parser.parse_open_parenthesis
  rw [h]
  rfl

theorem parse_close_parenthesis_of (s s' : LexicalAnalyser) (w : List Char)
    (h : get_next_token s = .ok (some (Lexeme.CLOSE_PARENTHESIS, w), s')) :
    Parser.parse_close_parenthesis s = .ok s' := by
  unfold Parser.parse_close_parenthesis
  rw [h]
  rfl

theorem parse_unary_operator_of (s s' : LexicalAnalyser) (w : List Char)
    (h : get_next_token s = .ok (some (Lexeme.UNARY_OPERATOR, w), s')) :
    Parser.parse_unary_operator s = .ok s' := by
  unfold Parser.parse_unary_operator
  rw [h]
  rfl

theorem parse_binary_operator_of (s s' : LexicalAnalyser) (lex : Lexeme) (w : List Char)
    (h : get_next_token s = .ok (some (lex, w), s')) :
    Parser.parse_binary_operator s =
      (if w == "\\wedge".toList then .ok (.andOperatorNode, s')
       else if w == "\\vee".toList then .ok (.orOperatorNode, s')
       else if w == "\\rightarrow".toList then .ok (.impliesOperatorNode, s')
       else if w == "\\leftrightarrow".toList then .ok (.biConditionalOperatorNode, s')
       else .error (.unexpected .BINARY_OPERATOR)) := by
  unfold Parser.parse_binary_operator
  rw [h]


/-! ### Dispatch and assembly lemmas for the recursive descent -/

@[simp] theorem atPos_pos (s : LexicalAnalyser) (p : Nat) :
    (s.atPos p).next_character_position = p := rfl

@[simp] theorem atPos_content (s : LexicalAnalyser) (p : Nat) :
    (s.atPos p).content = s.content := rfl

@[simp] theorem atPos_patterns (s : LexicalAnalyser) (p : Nat) :
    (s.atPos p).patterns = s.patterns := rfl

@[simp] theorem atPos_atPos (s : LexicalAnalyser) (p q : Nat) :
    (s.atPos p).atPos q = s.atPos q := rfl

theorem boundary_cases (rest : List Char)
    (hb : rest.head? = some ' ' ∨ rest.head? = some ')' ∨ rest.head? = some '\n') :
    ∃ b r2, rest = b :: r2 ∧ (b = ' ' ∨ b = ')' ∨ b = '\n') := by
  cases rest with
  | nil => simp at hb
  | cons x xs =>
    refine ⟨x, xs, rfl, ?_⟩
    simpa using hb

theorem alnum_not_space (c : Char) (hc : alnumChars.contains c = true) :
    (c.toLower == ' ') = false := by
  have h' := alnum_mem c hc
  fin_cases h' <;> rfl

theorem parse_succ_constant (d : Nat) (s s' : LexicalAnalyser) (w : List Char) (n : Node)
    (hpeek : peek_next_token s = .ok (some (Lexeme.CONSTANT, w), s))
    (hbody : Parser.parse_constant s = .ok (n, s')) :
    Parser.parse (d + 1) s = .ok (.formulaNode n, s') := by
  simp only [Parser.parse, hpeek, hbody]

theorem parse_succ_proposition (d : Nat) (s s' : LexicalAnalyser) (w : List Char) (n : Node)
    (hpeek : peek_next_token s = .ok (some (Lexeme.PROPOSITION, w), s))
    (hbody : Parser.parse_proposition s = .ok (n, s')) :
    Parser.parse (d + 1) s = .ok (.formulaNode n, s') := by
  simp only [Parser.parse, hpeek, hbody]

theorem parse_succ_unary (d : Nat) (s s' : LexicalAnalyser) (w1 w2 : List Char) (n : Node)
    (hpeek : peek_next_token s = .ok (some (Lexeme.OPEN_PARENTHESIS, w1), s))
    (hpeek2 : peek_peek_next_token s = .ok (some (Lexeme.UNARY_OPERATOR, w2), s))
    (hbody : Parser.parse_unary_formula (Parser.parse d) s = .ok (n, s')) :
    Parser.parse (d + 1) s = .ok (.formulaNode n, s') := by
  simp only [Parser.parse, hpeek, hpeek2, hbody]
  simp

theorem parse_succ_binary (d : Nat) (s s' : LexicalAnalyser) (w1 w2 : List Char)
    (lex2 : Lexeme) (n : Node)
    (hpeek : peek_next_token s = .ok (some (Lexeme.OPEN_PARENTHESIS, w1), s))
    (hpeek2 : peek_peek_next_token s = .ok (some (lex2, w2), s))
    (hne : (lex2 == Lexeme.UNARY_OPERATOR) = false)
    (hbody : Parser.parse_binary_formula (Parser.parse d) s = .ok (n, s')) :
    Parser.parse (d + 1) s = .ok (.formulaNode n, s') := by
  simp only [Parser.parse, hpeek, hpeek2, hne, hbody]
  simp

theorem parse_unary_formula_of
    (pf : LexicalAnalyser → Except ParseError (Node × LexicalAnalyser))
    (s s1 s2 s3 s4 : LexicalAnalyser) (n : Node)
    (h1 : Parser.parse_open_parenthesis s = .ok s1)
    (h2 : Parser.parse_unary_operator s1 = .ok s2)
    (h3 : pf s2 = .ok (n, s3))
    (h4 : Parser.parse_close_parenthesis s3 = .ok s4) :
    Parser.parse_unary_formula pf s = .ok (.negationFormulaNode n, s4) := by
  simp only [Parser.parse_unary_formula, h1, h2, h3, h4]

theorem parse_binary_formula_of
    (pf : LexicalAnalyser → Except ParseError (Node × LexicalAnalyser))
    (s s1 s2 s3 s4 s5 : LexicalAnalyser) (op : BinaryOperatorNode) (nl nr : Node)
    (h1 : Parser.parse_open_parenthesis s = .ok s1)
    (h2 : Parser.parse_binary_operator s1 = .ok (op, s2))
    (h3 : pf s2 = .ok (nl, s3))
    (h4 : pf s3 = .ok (nr, s4))
    (h5 : Parser.parse_close_parenthesis s4 = .ok s5) :
    Parser.parse_binary_formula pf s =
      (match op with
       | .andOperatorNode => .ok (.andFormulaNode nl nr, s5)
       | .orOperatorNode => .ok (.orFormulaNode nl nr, s5)
       | .impliesOperatorNode => .ok (.impliesFormulaNode nl nr, s5)
       | .biConditionalOperatorNode => .ok (.biConditionalFormulaNode nl nr, s5)) := by
  simp only [Parser.parse_binary_formula, h1, h2, h3, h4, h5]
  cases op <;> rfl

/-- Scanning any of the four binary-operator literals. -/
theorem scanLoop_binop (op : BinOp) (b : Char) (r2 : List Char)
    (hb : b = '\n' ∨ ALPHABET.contains b.toLower = true) :
    scanLoop build_patterns (BinOp.text op ++ b :: r2) [] 0 =
      .ok (some (Lexeme.BINARY_OPERATOR, BinOp.text op), build_patterns,
           (BinOp.text op).length) := by
  cases op
  · exact scanLoop_wedge b r2 hb
  · exact scanLoop_vee b r2 hb
  · exact scanLoop_rightarrow b r2 hb
  · exact scanLoop_leftrightarrow b r2 hb

theorem parse_binary_operator_binop (s s' : LexicalAnalyser) (op : BinOp)
    (h : get_next_token s = .ok (some (Lexeme.BINARY_OPERATOR, BinOp.text op), s')) :
    Parser.parse_binary_operator s = .ok (opNode op, s') := by
  rw [parse_binary_operator_of s s' Lexeme.BINARY_OPERATOR (BinOp.text op) h]
  cases op <;> rfl


/-! ### The round-trip: parsing a rendered formula -/

theorem render_length_neg (g : Formula) :
    (render (Formula.neg g)).length = 7 + (render g).length := by
  simp [render]
  omega

theorem render_length_bin (op : BinOp) (l r : Formula) :
    (render (Formula.bin op l r)).length =
      1 + (BinOp.text op).length + 1 + (render l).length + 1 + (render r).length + 1 := by
  simp [render]
  omega

theorem depth_le_render_length (f : Formula) : f.depth ≤ (render f).length := by
  induction f with
  | const v => simp [Formula.depth]
  | prop v => simp [Formula.depth]
  | neg g ih =>
    have h := render_length_neg g
    simp only [Formula.depth]
    omega
  | bin op l r ihl ihr =>
    have h := render_length_bin op l r
    have hop : 1 ≤ (BinOp.text op).length := by cases op <;> decide
    simp only [Formula.depth]
    omega

/-- Parsing at a position where the remaining content is (at most one leading
separator, then) the canonical rendering of a valid formula followed by a
boundary character: the parser returns exactly the node tree of the formula
and leaves the cursor right after the rendering. -/
theorem parse_render (f : Formula) :
    ∀ (fuel : Nat) (s : LexicalAnalyser) (sp : Nat) (rest : List Char),
    f.valid = true →
    f.depth < fuel →
    s.patterns = build_patterns →
    (sp = 0 ∨ sp = 1) →
    s.content.drop s.next_character_position =
      List.replicate sp ' ' ++ (render f ++ rest) →
    (rest.head? = some ' ' ∨ rest.head? = some ')' ∨ rest.head? = some '\n') →
    Parser.parse fuel s =
      .ok (toNode f, s.atPos (s.next_character_position + sp + (render f).length)) := by
  induction f with
  | const v =>
    intro fuel s sp rest hv hd hp hsp hc hb
    cases fuel with
    | zero => simp [Formula.depth] at hd
    | succ d =>
      obtain ⟨b, r2, rfl, hb3⟩ := boundary_cases rest hb
      have hv' : v = "true".toList ∨ v = "false".toList := by
        simpa only [Formula.valid, Bool.or_eq_true, beq_iff_eq] using hv
      rcases hv' with rfl | rfl
      · have e : render (Formula.const "true".toList) ++ b :: r2 =
            't' :: ('r' :: 'u' :: 'e' :: (b :: r2)) := rfl
        rw [e] at hc
        have htok := get_next_token_token s sp 't' ('r' :: 'u' :: 'e' :: (b :: r2))
          Lexeme.CONSTANT ['t', 'r', 'u', 'e'] 4 hp hsp hc rfl
          (scanLoop_true b r2 (boundary_spec b hb3))
        rw [parse_succ_constant d s _ _ _ (peek_next_token_of_get _ _ _ htok)
          (parse_constant_of _ _ _ htok)]
        rfl
      · have e : render (Formula.const "false".toList) ++ b :: r2 =
            'f' :: ('a' :: 'l' :: 's' :: 'e' :: (b :: r2)) := rfl
        rw [e] at hc
        have htok := get_next_token_token s sp 'f' ('a' :: 'l' :: 's' :: 'e' :: (b :: r2))
          Lexeme.CONSTANT ['f', 'a', 'l', 's', 'e'] 5 hp hsp hc rfl
          (scanLoop_false b r2 (boundary_spec b hb3))
        rw [parse_succ_constant d s _ _ _ (peek_next_token_of_get _ _ _ htok)
          (parse_constant_of _ _ _ htok)]
        rfl
  | prop v =>
    intro fuel s sp rest hv hd hp hsp hc hb
    cases fuel with
    | zero => simp [Formula.depth] at hd
    | succ d =>
      obtain ⟨b, r2, rfl, hb3⟩ := boundary_cases rest hb
      obtain ⟨d0, t, rfl, hd0, ht⟩ :
          ∃ d0 t, v = d0 :: t ∧ digitChars.contains d0 = true ∧
            t.all (fun c => alnumChars.contains c) = true := by
        cases v with
        | nil => simp [Formula.valid] at hv
        | cons d0 t =>
          simp only [Formula.valid, Bool.and_eq_true] at hv
          exact ⟨d0, t, rfl, hv.1, hv.2⟩
      have e : render (Formula.prop (d0 :: t)) ++ b :: r2 = d0 :: (t ++ b :: r2) := by
        simp [render]
      rw [e] at hc
      have htok := get_next_token_token s sp d0 (t ++ b :: r2) Lexeme.PROPOSITION (d0 :: t)
        (1 + t.length) hp hsp hc (alnum_not_space d0 (digit_alnum d0 hd0))
        (scanLoop_prop d0 t b r2 hd0 ht hb3)
      rw [parse_succ_proposition d s _ _ _ (peek_next_token_of_get _ _ _ htok)
        (parse_proposition_of _ _ _ htok)]
      have harith : s.next_character_position + sp + (1 + t.length) =
          s.next_character_position + sp + (render (Formula.prop (d0 :: t))).length := by
        simp [render]
        omega
      rw [harith]
      rfl
  | neg g ih =>
    intro fuel s sp rest hv hd hp hsp hc hb
    cases fuel with
    | zero => simp [Formula.depth] at hd
    | succ d =>
      obtain ⟨b, r2, rfl, hb3⟩ := boundary_cases rest hb
      have hvg : g.valid = true := by simpa [Formula.valid] using hv
      have hdg : g.depth < d := by
        simp only [Formula.depth] at hd
        omega
      have e : render (Formula.neg g) ++ b :: r2 =
          '(' :: ('\\' :: 'n' :: 'e' :: 'g' :: ' ' :: (render g ++ ')' :: b :: r2)) := by
        simp [render]
      rw [e] at hc
      have htok1 := get_next_token_token s sp '('
        ('\\' :: 'n' :: 'e' :: 'g' :: ' ' :: (render g ++ ')' :: b :: r2))
        Lexeme.OPEN_PARENTHESIS ['('] 1 hp hsp hc rfl
        (scanLoop_open '\\' _ (Or.inr rfl))
      have hdrop1 : s.content.drop (s.next_character_position + sp + 1) =
          '\\' :: 'n' :: 'e' :: 'g' :: ' ' :: (render g ++ ')' :: b :: r2) := by
        have h := drop_add_of_drop_eq s.content (List.replicate sp ' ' ++ ['('])
          ('\\' :: 'n' :: 'e' :: 'g' :: ' ' :: (render g ++ ')' :: b :: r2))
          s.next_character_position (sp + 1)
          (by rw [hc]; simp) (by simp)
        rw [show s.next_character_position + sp + 1 = s.next_character_position + (sp + 1) from
          by omega]
        exact h
      have htok2 := get_next_token_token (s.atPos (s.next_character_position + sp + 1)) 0 '\\'
        ('n' :: 'e' :: 'g' :: ' ' :: (render g ++ ')' :: b :: r2))
        Lexeme.UNARY_OPERATOR ['\\', 'n', 'e', 'g'] 4 hp (Or.inl rfl)
        (by simpa using hdrop1) rfl
        (scanLoop_neg ' ' (render g ++ ')' :: b :: r2) (Or.inr rfl))
      have htok2' : get_next_token (s.atPos (s.next_character_position + sp + 1)) =
          .ok (some (Lexeme.UNARY_OPERATOR, ['\\', 'n', 'e', 'g']),
               s.atPos (s.next_character_position + sp + 5)) := by
        rw [htok2]
        simp only [atPos_atPos, atPos_pos]
      have hpeek := peek_next_token_of_get s _ _ htok1
      have hpeek2 := peek_peek_next_token_of_gets s _ _ _ _ htok1 htok2
      have h1 := parse_open_parenthesis_of s _ _ htok1
      have h2 := parse_unary_operator_of (s.atPos (s.next_character_position + sp + 1)) _ _ htok2'
      have hdrop5 : s.content.drop (s.next_character_position + sp + 5) =
          ' ' :: (render g ++ ')' :: b :: r2) := by
        have h := drop_add_of_drop_eq s.content
          (List.replicate sp ' ' ++ ['(', '\\', 'n', 'e', 'g'])
          (' ' :: (render g ++ ')' :: b :: r2)) s.next_character_position (sp + 5)
          (by rw [hc]; simp) (by simp)
        rw [show s.next_character_position + sp + 5 = s.next_character_position + (sp + 5) from
          by omega]
        exact h
      have h3 := ih d (s.atPos (s.next_character_position + sp + 5)) 1 (')' :: b :: r2) hvg hdg
        hp (Or.inr rfl) (by simpa using hdrop5) (Or.inr (Or.inl rfl))
      have h3' : Parser.parse d (s.atPos (s.next_character_position + sp + 5)) =
          .ok (toNode g, s.atPos (s.next_character_position + sp + 6 + (render g).length)) := by
        rw [h3]
        simp only [atPos_atPos, atPos_pos]
      have hdropc : s.content.drop (s.next_character_position + sp + 6 + (render g).length) =
          ')' :: b :: r2 := by
        have h := drop_add_of_drop_eq s.content
          (List.replicate sp ' ' ++ ('(' :: '\\' :: 'n' :: 'e' :: 'g' :: ' ' :: render g))
          (')' :: b :: r2) s.next_character_position (sp + 6 + (render g).length)
          (by rw [hc]; simp) (by simp; omega)
        rw [show s.next_character_position + sp + 6 + (render g).length =
          s.next_character_position + (sp + 6 + (render g).length) from by omega]
        exact h
      have htok4 := get_next_token_token
        (s.atPos (s.next_character_position + sp + 6 + (render g).length)) 0 ')'
        (b :: r2) Lexeme.CLOSE_PARENTHESIS [')'] 1 hp (Or.inl rfl)
        (by simpa using hdropc) rfl
        (scanLoop_close b r2 (boundary_spec b hb3))
      have htok4' : get_next_token
          (s.atPos (s.next_character_position + sp + 6 + (render g).length)) =
          .ok (some (Lexeme.CLOSE_PARENTHESIS, [')']),
               s.atPos (s.next_character_position + sp + 7 + (render g).length)) := by
        rw [htok4]
        simp only [atPos_atPos, atPos_pos]
        rw [show s.next_character_position + sp + 6 + (render g).length + 0 + 1 =
          s.next_character_position + sp + 7 + (render g).length from by omega]
      have h4 := parse_close_parenthesis_of _ _ _ htok4'
      have hbody := parse_unary_formula_of (Parser.parse d) s
        (s.atPos (s.next_character_position + sp + 1))
        (s.atPos (s.next_character_position + sp + 5))
        (s.atPos (s.next_character_position + sp + 6 + (render g).length))
        (s.atPos (s.next_character_position + sp + 7 + (render g).length))
        (toNode g) h1 h2 h3' h4
      rw [parse_succ_unary d s _ _ _ _ hpeek hpeek2 hbody]
      have harith : s.next_character_position + sp + 7 + (render g).length =
          s.next_character_position + sp + (render (Formula.neg g)).length := by
        rw [render_length_neg]
        omega
      rw [harith]
      rfl
  | bin op l r ihl ihr =>
    intro fuel s sp rest hv hd hp hsp hc hb
    cases fuel with
    | zero => simp [Formula.depth] at hd
    | succ d =>
      obtain ⟨b, r2, rfl, hb3⟩ := boundary_cases rest hb
      have hvl : l.valid = true := by
        simp only [Formula.valid, Bool.and_eq_true] at hv
        exact hv.1
      have hvr : r.valid = true := by
        simp only [Formula.valid, Bool.and_eq_true] at hv
        exact hv.2
      have hdl : l.depth < d := by
        simp only [Formula.depth] at hd
        omega
      have hdr : r.depth < d := by
        simp only [Formula.depth] at hd
        omega
      obtain ⟨optail, hoptail⟩ : ∃ optail, BinOp.text op = '\\' :: optail := by
        cases op
        · exact ⟨['w', 'e', 'd', 'g', 'e'], rfl⟩
        · exact ⟨['v', 'e', 'e'], rfl⟩
        · exact ⟨['r', 'i', 'g', 'h', 't', 'a', 'r', 'r', 'o', 'w'], rfl⟩
        · exact ⟨['l', 'e', 'f', 't', 'r', 'i', 'g', 'h', 't', 'a', 'r', 'r', 'o', 'w'], rfl⟩
      have e : render (Formula.bin op l r) ++ b :: r2 =
          '(' :: (BinOp.text op ++ ' ' :: (render l ++ ' ' :: (render r ++ ')' :: b :: r2))) := by
        simp [render]
      rw [e] at hc
      have hc1 : s.content.drop s.next_character_position =
          List.replicate sp ' ' ++
            ('(' :: '\\' ::
              (optail ++ ' ' :: (render l ++ ' ' :: (render r ++ ')' :: b :: r2)))) := by
        rw [hc, hoptail]
        simp
      have htok1 := get_next_token_token s sp '('
        ('\\' :: (optail ++ ' ' :: (render l ++ ' ' :: (render r ++ ')' :: b :: r2))))
        Lexeme.OPEN_PARENTHESIS ['('] 1 hp hsp hc1 rfl
        (scanLoop_open '\\' _ (Or.inr rfl))
      have hdrop1 : s.content.drop (s.next_character_position + sp + 1) =
          BinOp.text op ++ ' ' :: (render l ++ ' ' :: (render r ++ ')' :: b :: r2)) := by
        have h := drop_add_of_drop_eq s.content (List.replicate sp ' ' ++ ['('])
          (BinOp.text op ++ ' ' :: (render l ++ ' ' :: (render r ++ ')' :: b :: r2)))
          s.next_character_position (sp + 1)
          (by rw [hc]; simp) (by simp)
        rw [show s.next_character_position + sp + 1 = s.next_character_position + (sp + 1) from
          by omega]
        exact h
      have hscan2 : scanLoop build_patterns
          ('\\' :: (optail ++ ' ' :: (render l ++ ' ' :: (render r ++ ')' :: b :: r2)))) [] 0 =
          .ok (some (Lexeme.BINARY_OPERATOR, BinOp.text op), build_patterns,
               (BinOp.text op).length) := by
        have h := scanLoop_binop op ' ' (render l ++ ' ' :: (render r ++ ')' :: b :: r2))
          (Or.inr rfl)
        rw [show BinOp.text op ++ ' ' :: (render l ++ ' ' :: (render r ++ ')' :: b :: r2)) =
          '\\' :: (optail ++ ' ' :: (render l ++ ' ' :: (render r ++ ')' :: b :: r2))) from
          by rw [hoptail]; simp] at h
        exact h
      have htok2 := get_next_token_token (s.atPos (s.next_character_position + sp + 1)) 0 '\\'
        (optail ++ ' ' :: (render l ++ ' ' :: (render r ++ ')' :: b :: r2)))
        Lexeme.BINARY_OPERATOR (BinOp.text op) (BinOp.text op).length hp (Or.inl rfl)
        (by rw [hoptail] at hdrop1; simpa using hdrop1) rfl hscan2
      have htok2' : get_next_token (s.atPos (s.next_character_position + sp + 1)) =
          .ok (some (Lexeme.BINARY_OPERATOR, BinOp.text op),
               s.atPos (s.next_character_position + sp + 1 + (BinOp.text op).length)) := by
        rw [htok2]
        simp only [atPos_atPos, atPos_pos]
      have hpeek := peek_next_token_of_get s _ _ htok1
      have hpeek2 := peek_peek_next_token_of_gets s _ _ _ _ htok1 htok2
      have h1 := parse_open_parenthesis_of s _ _ htok1
      have h2 := parse_binary_operator_binop
        (s.atPos (s.next_character_position + sp + 1)) _ op htok2'
      have hdropL : s.content.drop
          (s.next_character_position + sp + 1 + (BinOp.text op).length) =
          ' ' :: (render l ++ ' ' :: (render r ++ ')' :: b :: r2)) := by
        have h := drop_add_of_drop_eq s.content
          (List.replicate sp ' ' ++ '(' :: BinOp.text op)
          (' ' :: (render l ++ ' ' :: (render r ++ ')' :: b :: r2)))
          s.next_character_position (sp + 1 + (BinOp.text op).length)
          (by rw [hc]; simp) (by simp; omega)
        rw [show s.next_character_position + sp + 1 + (BinOp.text op).length =
          s.next_character_position + (sp + 1 + (BinOp.text op).length) from by omega]
        exact h
      have h3 := ihl d
        (s.atPos (s.next_character_position + sp + 1 + (BinOp.text op).length)) 1
        (' ' :: (render r ++ ')' :: b :: r2)) hvl hdl hp (Or.inr rfl)
        (by simpa using hdropL) (Or.inl rfl)
      have h3' : Parser.parse d
          (s.atPos (s.next_character_position + sp + 1 + (BinOp.text op).length)) =
          .ok (toNode l, s.atPos (s.next_character_position + sp + 2 +
            (BinOp.text op).length + (render l).length)) := by
        rw [h3]
        simp only [atPos_atPos, atPos_pos]
        rw [show s.next_character_position + sp + 1 + (BinOp.text op).length + 1 +
          (render l).length = s.next_character_position + sp + 2 + (BinOp.text op).length +
          (render l).length from by omega]
      have hdropR : s.content.drop (s.next_character_position + sp + 2 +
          (BinOp.text op).length + (render l).length) =
          ' ' :: (render r ++ ')' :: b :: r2) := by
        have h := drop_add_of_drop_eq s.content
          (List.replicate sp ' ' ++ '(' :: (BinOp.text op ++ ' ' :: render l))
          (' ' :: (render r ++ ')' :: b :: r2))
          s.next_character_position (sp + 2 + (BinOp.text op).length + (render l).length)
          (by rw [hc]; simp) (by simp; omega)
        rw [show s.next_character_position + sp + 2 + (BinOp.text op).length +
          (render l).length = s.next_character_position + (sp + 2 + (BinOp.text op).length +
          (render l).length) from by omega]
        exact h
      have h4 := ihr d (s.atPos (s.next_character_position + sp + 2 +
        (BinOp.text op).length + (render l).length)) 1 (')' :: b :: r2) hvr hdr hp (Or.inr rfl)
        (by simpa using hdropR) (Or.inr (Or.inl rfl))
      have h4' : Parser.parse d (s.atPos (s.next_character_position + sp + 2 +
          (BinOp.text op).length + (render l).length)) =
          .ok (toNode r, s.atPos (s.next_character_position + sp + 3 +
            (BinOp.text op).length + (render l).length + (render r).length)) := by
        rw [h4]
        simp only [atPos_atPos, atPos_pos]
        rw [show s.next_character_position + sp + 2 + (BinOp.text op).length +
          (render l).length + 1 + (render r).length = s.next_character_position + sp + 3 +
          (BinOp.text op).length + (render l).length + (render r).length from by omega]
      have hdropC : s.content.drop (s.next_character_position + sp + 3 +
          (BinOp.text op).length + (render l).length + (render r).length) =
          ')' :: b :: r2 := by
        have h := drop_add_of_drop_eq s.content
          (List.replicate sp ' ' ++ '(' :: (BinOp.text op ++ ' ' :: (render l ++
            ' ' :: render r)))
          (')' :: b :: r2) s.next_character_position
          (sp + 3 + (BinOp.text op).length + (render l).length + (render r).length)
          (by rw [hc]; simp) (by simp; omega)
        rw [show s.next_character_position + sp + 3 + (BinOp.text op).length +
          (render l).length + (render r).length = s.next_character_position + (sp + 3 +
          (BinOp.text op).length + (render l).length + (render r).length) from by omega]
        exact h
      have htok5 := get_next_token_token (s.atPos (s.next_character_position + sp + 3 +
        (BinOp.text op).length + (render l).length + (render r).length)) 0 ')'
        (b :: r2) Lexeme.CLOSE_PARENTHESIS [')'] 1 hp (Or.inl rfl)
        (by simpa using hdropC) rfl
        (scanLoop_close b r2 (boundary_spec b hb3))
      have htok5' : get_next_token (s.atPos (s.next_character_position + sp + 3 +
          (BinOp.text op).length + (render l).length + (render r).length)) =
          .ok (some (Lexeme.CLOSE_PARENTHESIS, [')']),
               s.atPos (s.next_character_position + sp + 4 + (BinOp.text op).length +
                 (render l).length + (render r).length)) := by
        rw [htok5]
        simp only [atPos_atPos, atPos_pos]
        rw [show s.next_character_position + sp + 3 + (BinOp.text op).length +
          (render l).length + (render r).length + 0 + 1 = s.next_character_position + sp + 4 +
          (BinOp.text op).length + (render l).length + (render r).length from by omega]
      have h5 := parse_close_parenthesis_of _ _ _ htok5'
      have hbody0 := parse_binary_formula_of (Parser.parse d) s
        (s.atPos (s.next_character_position + sp + 1))
        (s.atPos (s.next_character_position + sp + 1 + (BinOp.text op).length))
        (s.atPos (s.next_character_position + sp + 2 + (BinOp.text op).length +
          (render l).length))
        (s.atPos (s.next_character_position + sp + 3 + (BinOp.text op).length +
          (render l).length + (render r).length))
        (s.atPos (s.next_character_position + sp + 4 + (BinOp.text op).length +
          (render l).length + (render r).length))
        (opNode op) (toNode l) (toNode r) h1 h2 h3' h4' h5
      have hbody : Parser.parse_binary_formula (Parser.parse d) s =
          .ok (toNodeInner (Formula.bin op l r),
               s.atPos (s.next_character_position + sp + 4 + (BinOp.text op).length +
                 (render l).length + (render r).length)) := by
        rw [hbody0]
        cases op <;> rfl
      rw [parse_succ_binary d s _ _ _ Lexeme.BINARY_OPERATOR _ hpeek hpeek2 rfl hbody]
      have harith : s.next_character_position + sp + 4 + (BinOp.text op).length +
          (render l).length + (render r).length =
          s.next_character_position + sp + (render (Formula.bin op l r)).length := by
        rw [render_length_bin]
        omega
      rw [harith]
      rfl


theorem parse_one_line_of_parse (line : List Char) (fuel : Nat) (res : Node)
    (s' : LexicalAnalyser)
    (hf : line.length + 1 = fuel)
    (h : Parser.parse fuel (LexicalAnalyser.mk0 line) = .ok (res, s')) :
    parse_one_line line = .ok res := by
  unfold parse_one_line
  rw [hf, h]

theorem parse_one_line_err_of_parse (line : List Char) (fuel : Nat) (e : ParseError)
    (hf : line.length + 1 = fuel)
    (h : Parser.parse fuel (LexicalAnalyser.mk0 line) = .error e) :
    parse_one_line line = .error e := by
  unfold parse_one_line
  rw [hf, h]

/-- The round-trip at the level of the driver: one line holding the canonical
rendering of a valid formula parses back to exactly its node tree. -/
theorem roundtrip_aux (f : Formula) (hf : f.valid = true) :
    parse_one_line (render f ++ ['\n']) = .ok (toNode f) := by
  have hd : f.depth < (render f ++ ['\n']).length + 1 := by
    have h := depth_le_render_length f
    simp only [List.length_append, List.length_cons, List.length_nil]
    omega
  have hc : (LexicalAnalyser.mk0 (render f ++ ['\n'])).content.drop
      (LexicalAnalyser.mk0 (render f ++ ['\n'])).next_character_position =
      List.replicate 0 ' ' ++ (render f ++ ['\n']) := by
    simp [LexicalAnalyser.mk0]
  have h := parse_render f ((render f ++ ['\n']).length + 1)
    (LexicalAnalyser.mk0 (render f ++ ['\n'])) 0 ['\n'] hf hd rfl (Or.inl rfl) hc
    (Or.inr (Or.inr rfl))
  exact parse_one_line_of_parse _ _ _ _ rfl h

/-! ### Error propagation through the descent -/

theorem parse_succ_unary_err (d : Nat) (s : LexicalAnalyser) (w1 w2 : List Char)
    (e : ParseError)
    (hpeek : peek_next_token s = .ok (some (Lexeme.OPEN_PARENTHESIS, w1), s))
    (hpeek2 : peek_peek_next_token s = .ok (some (Lexeme.UNARY_OPERATOR, w2), s))
    (hbody : Parser.parse_unary_formula (Parser.parse d) s = .error e) :
    Parser.parse (d + 1) s = .error e := by
  simp only [Parser.parse, hpeek, hpeek2, hbody]
  simp

theorem parse_succ_binary_err (d : Nat) (s : LexicalAnalyser) (w1 w2 : List Char)
    (lex2 : Lexeme) (e : ParseError)
    (hpeek : peek_next_token s = .ok (some (Lexeme.OPEN_PARENTHESIS, w1), s))
    (hpeek2 : peek_peek_next_token s = .ok (some (lex2, w2), s))
    (hne : (lex2 == Lexeme.UNARY_OPERATOR) = false)
    (hbody : Parser.parse_binary_formula (Parser.parse d) s = .error e) :
    Parser.parse (d + 1) s = .error e := by
  simp only [Parser.parse, hpeek, hpeek2, hne, hbody]
  simp

theorem parse_unary_formula_err3
    (pf : LexicalAnalyser → Except ParseError (Node × LexicalAnalyser))
    (s s1 s2 : LexicalAnalyser) (e : ParseError)
    (h1 : Parser.parse_open_parenthesis s = .ok s1)
    (h2 : Parser.parse_unary_operator s1 = .ok s2)
    (h3 : pf s2 = .error e) :
    Parser.parse_unary_formula pf s = .error e := by
  simp only [Parser.parse_unary_formula, h1, h2, h3]

theorem parse_binary_formula_err2
    (pf : LexicalAnalyser → Except ParseError (Node × LexicalAnalyser))
    (s s1 : LexicalAnalyser) (e : ParseError)
    (h1 : Parser.parse_open_parenthesis s = .ok s1)
    (h2 : Parser.parse_binary_operator s1 = .error e) :
    Parser.parse_binary_formula pf s = .error e := by
  simp only [Parser.parse_binary_formula, h1, h2]

theorem parse_binary_formula_err3
    (pf : LexicalAnalyser → Except ParseError (Node × LexicalAnalyser))
    (s s1 s2 : LexicalAnalyser) (op : BinaryOperatorNode) (e : ParseError)
    (h1 : Parser.parse_open_parenthesis s = .ok s1)
    (h2 : Parser.parse_binary_operator s1 = .ok (op, s2))
    (h3 : pf s2 = .error e) :
    Parser.parse_binary_formula pf s = .error e := by
  simp only [Parser.parse_binary_formula, h1, h2, h3]

/-! ### The claims -/

/-- C1.  Round-trip: for every formula valid in the grammar of section 6,
parsing the canonical rendering of the formula (fully parenthesized prefix
form with single-space separation and a terminating newline) succeeds and
produces an AST of the same shape — same connective at every node, same
constant/proposition texts, children in the same order (`toNode f` is exactly
that tree, including the `FormulaNode` wrappers the parser inserts). -/
theorem c1_roundtrip (f : Formula) (hf : f.valid = true) :
    parse_one_line (render f ++ ['\n']) = .ok (toNode f) :=
  roundtrip_aux f hf

/-- Witness for C1 at the concrete formula `(\wedge true 2)`. -/
theorem c1_roundtrip_witness :
    (Formula.bin BinOp.wedge (Formula.const "true".toList)
      (Formula.prop "2".toList)).valid = true ∧
    parse_one_line (render (Formula.bin BinOp.wedge (Formula.const "true".toList)
      (Formula.prop "2".toList)) ++ ['\n']) =
      .ok (toNode (Formula.bin BinOp.wedge (Formula.const "true".toList)
        (Formula.prop "2".toList))) :=
  ⟨by decide, c1_roundtrip _ (by decide)⟩


@[simp] theorem mk0_pos (l : List Char) : (LexicalAnalyser.mk0 l).next_character_position = 0 := rfl

@[simp] theorem mk0_content (l : List Char) : (LexicalAnalyser.mk0 l).content = l := rfl

@[simp] theorem mk0_patterns (l : List Char) : (LexicalAnalyser.mk0 l).patterns = build_patterns := rfl

/-- C2 counterexample: the spec's two disambiguation examples are not in the
grammar of section 6 — the sub-terms `(1)` and `(true)` are parenthesized
atoms, which no production derives.  On both lines the parser takes the
binary-formula production for the parenthesized atom and then fails in
`parse_binary_operator` (consuming `1` resp. `true` where an operator text was
expected), raising the corresponding `Exception` instead of producing the
claimed trees. -/
theorem c2_counterexample :
    parse_one_line "(\\neg (1))\n".toList = .error (.unexpected Rule.BINARY_OPERATOR) ∧
    parse_one_line "(\\wedge (true) (2))\n".toList =
      .error (.unexpected Rule.BINARY_OPERATOR) := by
  constructor
  · have htok1 : get_next_token (LexicalAnalyser.mk0 "(\\neg (1))\n".toList) =
        .ok (some (Lexeme.OPEN_PARENTHESIS, ['(']),
             (LexicalAnalyser.mk0 "(\\neg (1))\n".toList).atPos 1) := by
      have h := get_next_token_token (LexicalAnalyser.mk0 "(\\neg (1))\n".toList) 0 '('
        ('\\' :: 'n' :: 'e' :: 'g' :: ' ' :: '(' :: '1' :: ')' :: ')' :: '\n' :: [])
        Lexeme.OPEN_PARENTHESIS ['('] 1 rfl (Or.inl rfl) rfl rfl
        (scanLoop_open '\\' _ (Or.inr rfl))
      simpa using h
    have htok2 : get_next_token ((LexicalAnalyser.mk0 "(\\neg (1))\n".toList).atPos 1) =
        .ok (some (Lexeme.UNARY_OPERATOR, ['\\', 'n', 'e', 'g']),
             (LexicalAnalyser.mk0 "(\\neg (1))\n".toList).atPos 5) := by
      have h := get_next_token_token ((LexicalAnalyser.mk0 "(\\neg (1))\n".toList).atPos 1) 0
        '\\' ('n' :: 'e' :: 'g' :: ' ' :: '(' :: '1' :: ')' :: ')' :: '\n' :: [])
        Lexeme.UNARY_OPERATOR ['\\', 'n', 'e', 'g'] 4 rfl (Or.inl rfl) rfl rfl
        (scanLoop_neg ' ' ('(' :: '1' :: ')' :: ')' :: '\n' :: []) (Or.inr rfl))
      simpa using h
    have htok3 : get_next_token ((LexicalAnalyser.mk0 "(\\neg (1))\n".toList).atPos 5) =
        .ok (some (Lexeme.OPEN_PARENTHESIS, ['(']),
             (LexicalAnalyser.mk0 "(\\neg (1))\n".toList).atPos 7) := by
      have h := get_next_token_token ((LexicalAnalyser.mk0 "(\\neg (1))\n".toList).atPos 5) 1
        '(' ('1' :: ')' :: ')' :: '\n' :: [])
        Lexeme.OPEN_PARENTHESIS ['('] 1 rfl (Or.inr rfl) rfl rfl
        (scanLoop_open '1' _ (Or.inr rfl))
      simpa using h
    have htok4 : get_next_token ((LexicalAnalyser.mk0 "(\\neg (1))\n".toList).atPos 7) =
        .ok (some (Lexeme.PROPOSITION, ['1']),
             (LexicalAnalyser.mk0 "(\\neg (1))\n".toList).atPos 8) := by
      have h := get_next_token_token ((LexicalAnalyser.mk0 "(\\neg (1))\n".toList).atPos 7) 0
        '1' ([] ++ ')' :: ')' :: '\n' :: [])
        Lexeme.PROPOSITION ('1' :: []) (1 + ([] : List Char).length) rfl (Or.inl rfl) (by rfl) rfl
        (scanLoop_prop '1' [] ')' (')' :: '\n' :: []) rfl rfl (Or.inr (Or.inl rfl)))
      simpa using h
    have hpeekT := peek_next_token_of_get _ _ _ htok1
    have hpeek2T := peek_peek_next_token_of_gets _ _ _ _ _ htok1 htok2
    have h1c := parse_open_parenthesis_of _ _ _ htok1
    have h2c := parse_unary_operator_of _ _ _ htok2
    have hpeekI := peek_next_token_of_get _ _ _ htok3
    have hpeek2I := peek_peek_next_token_of_gets _ _ _ _ _ htok3 htok4
    have h3c := parse_open_parenthesis_of _ _ _ htok3
    have h4c : Parser.parse_binary_operator
        ((LexicalAnalyser.mk0 "(\\neg (1))\n".toList).atPos 7) =
        .error (.unexpected .BINARY_OPERATOR) := by
      rw [parse_binary_operator_of _ _ _ _ htok4]
      rfl
    have hbfI := parse_binary_formula_err2 (Parser.parse 10) _ _ _ h3c h4c
    have hpI := parse_succ_binary_err 10 _ _ _ Lexeme.PROPOSITION _ hpeekI hpeek2I rfl hbfI
    have hufT := parse_unary_formula_err3 (Parser.parse 11) _ _ _ _ h1c h2c hpI
    have hT := parse_succ_unary_err 11 _ _ _ _ hpeekT hpeek2T hufT
    exact parse_one_line_err_of_parse _ 12 _ rfl hT
  · have htok1 : get_next_token (LexicalAnalyser.mk0 "(\\wedge (true) (2))\n".toList) =
        .ok (some (Lexeme.OPEN_PARENTHESIS, ['(']),
             (LexicalAnalyser.mk0 "(\\wedge (true) (2))\n".toList).atPos 1) := by
      have h := get_next_token_token (LexicalAnalyser.mk0 "(\\wedge (true) (2))\n".toList) 0
        '(' ('\\' :: 'w' :: 'e' :: 'd' :: 'g' :: 'e' :: ' ' :: '(' :: 't' :: 'r' :: 'u' ::
          'e' :: ')' :: ' ' :: '(' :: '2' :: ')' :: ')' :: '\n' :: [])
        Lexeme.OPEN_PARENTHESIS ['('] 1 rfl (Or.inl rfl) rfl rfl
        (scanLoop_open '\\' _ (Or.inr rfl))
      simpa using h
    have htok2 : get_next_token
        ((LexicalAnalyser.mk0 "(\\wedge (true) (2))\n".toList).atPos 1) =
        .ok (some (Lexeme.BINARY_OPERATOR, ['\\', 'w', 'e', 'd', 'g', 'e']),
             (LexicalAnalyser.mk0 "(\\wedge (true) (2))\n".toList).atPos 7) := by
      have h := get_next_token_token
        ((LexicalAnalyser.mk0 "(\\wedge (true) (2))\n".toList).atPos 1) 0
        '\\' ('w' :: 'e' :: 'd' :: 'g' :: 'e' :: ' ' :: '(' :: 't' :: 'r' :: 'u' :: 'e' ::
          ')' :: ' ' :: '(' :: '2' :: ')' :: ')' :: '\n' :: [])
        Lexeme.BINARY_OPERATOR ['\\', 'w', 'e', 'd', 'g', 'e'] 6 rfl (Or.inl rfl) rfl rfl
        (scanLoop_wedge ' ' ('(' :: 't' :: 'r' :: 'u' :: 'e' :: ')' :: ' ' :: '(' :: '2' ::
          ')' :: ')' :: '\n' :: []) (Or.inr rfl))
      simpa using h
    have htok3 : get_next_token
        ((LexicalAnalyser.mk0 "(\\wedge (true) (2))\n".toList).atPos 7) =
        .ok (some (Lexeme.OPEN_PARENTHESIS, ['(']),
             (LexicalAnalyser.mk0 "(\\wedge (true) (2))\n".toList).atPos 9) := by
      have h := get_next_token_token
        ((LexicalAnalyser.mk0 "(\\wedge (true) (2))\n".toList).atPos 7) 1
        '(' ('t' :: 'r' :: 'u' :: 'e' :: ')' :: ' ' :: '(' :: '2' :: ')' :: ')' :: '\n' :: [])
        Lexeme.OPEN_PARENTHESIS ['('] 1 rfl (Or.inr rfl) rfl rfl
        (scanLoop_open 't' _ (Or.inr rfl))
      simpa using h
    have htok4 : get_next_token
        ((LexicalAnalyser.mk0 "(\\wedge (true) (2))\n".toList).atPos 9) =
        .ok (some (Lexeme.CONSTANT, ['t', 'r', 'u', 'e']),
             (LexicalAnalyser.mk0 "(\\wedge (true) (2))\n".toList).atPos 13) := by
      have h := get_next_token_token
        ((LexicalAnalyser.mk0 "(\\wedge (true) (2))\n".toList).atPos 9) 0
        't' ('r' :: 'u' :: 'e' :: ')' :: ' ' :: '(' :: '2' :: ')' :: ')' :: '\n' :: [])
        Lexeme.CONSTANT ['t', 'r', 'u', 'e'] 4 rfl (Or.inl rfl) rfl rfl
        (scanLoop_true ')' (' ' :: '(' :: '2' :: ')' :: ')' :: '\n' :: []) (Or.inr rfl))
      simpa using h
    have hpeekT := peek_next_token_of_get _ _ _ htok1
    have hpeek2T := peek_peek_next_token_of_gets _ _ _ _ _ htok1 htok2
    have h1c := parse_open_parenthesis_of _ _ _ htok1
    have h2c : Parser.parse_binary_operator
        ((LexicalAnalyser.mk0 "(\\wedge (true) (2))\n".toList).atPos 1) =
        .ok (.andOperatorNode,
             (LexicalAnalyser.mk0 "(\\wedge (true) (2))\n".toList).atPos 7) := by
      rw [parse_binary_operator_of _ _ _ _ htok2]
      rfl
    have hpeekI := peek_next_token_of_get _ _ _ htok3
    have hpeek2I := peek_peek_next_token_of_gets _ _ _ _ _ htok3 htok4
    have h3c := parse_open_parenthesis_of _ _ _ htok3
    have h4c : Parser.parse_binary_operator
        ((LexicalAnalyser.mk0 "(\\wedge (true) (2))\n".toList).atPos 9) =
        .error (.unexpected .BINARY_OPERATOR) := by
      rw [parse_binary_operator_of _ _ _ _ htok4]
      rfl
    have hbfI := parse_binary_formula_err2 (Parser.parse 19) _ _ _ h3c h4c
    have hpLeft := parse_succ_binary_err 19 _ _ _ Lexeme.CONSTANT _ hpeekI hpeek2I rfl hbfI
    have houter := parse_binary_formula_err3 (Parser.parse 20) _ _ _
      BinaryOperatorNode.andOperatorNode _ h1c h2c hpLeft
    have hT := parse_succ_binary_err 20 _ _ _ Lexeme.BINARY_OPERATOR _ hpeekT hpeek2T rfl houter
    exact parse_one_line_err_of_parse _ 21 _ rfl hT

/-- C2 (amended).  The grammatical counterparts of the spec's examples parse
as claimed: `(\neg 1)` yields a Negation whose child is Proposition "1", and
`(\wedge true 2)` yields And(Constant "true", Proposition "2") — including the
`FormulaNode` wrapper the parser puts around every sub-result. -/
theorem c2_disambiguation :
    parse_one_line "(\\neg 1)\n".toList =
      .ok (.formulaNode (.negationFormulaNode (.formulaNode (.propositionNode ['1'])))) ∧
    parse_one_line "(\\wedge true 2)\n".toList =
      .ok (.formulaNode (.andFormulaNode
        (.formulaNode (.constantNode ['t', 'r', 'u', 'e']))
        (.formulaNode (.propositionNode ['2'])))) := by
  constructor
  · exact roundtrip_aux (Formula.neg (Formula.prop ['1'])) (by decide)
  · exact roundtrip_aux (Formula.bin BinOp.wedge (Formula.const "true".toList)
      (Formula.prop ['2'])) (by decide)


/-- Shared evaluation for C8: the missing-second-operand example fails inside
`parse_binary_operator` while parsing the left operand `(true)` as a binary
formula. -/
theorem wedge_missing_operand_aux :
    parse_one_line "(\\wedge (true))\n".toList =
      .error (.unexpected Rule.BINARY_OPERATOR) := by
  have htok1 : get_next_token (LexicalAnalyser.mk0 "(\\wedge (true))\n".toList) =
      .ok (some (Lexeme.OPEN_PARENTHESIS, ['(']),
           (LexicalAnalyser.mk0 "(\\wedge (true))\n".toList).atPos 1) := by
    have h := get_next_token_token (LexicalAnalyser.mk0 "(\\wedge (true))\n".toList) 0
      '(' ('\\' :: 'w' :: 'e' :: 'd' :: 'g' :: 'e' :: ' ' :: '(' :: 't' :: 'r' :: 'u' ::
        'e' :: ')' :: ')' :: '\n' :: [])
      Lexeme.OPEN_PARENTHESIS ['('] 1 rfl (Or.inl rfl) rfl rfl
      (scanLoop_open '\\' _ (Or.inr rfl))
    simpa using h
  have htok2 : get_next_token
      ((LexicalAnalyser.mk0 "(\\wedge (true))\n".toList).atPos 1) =
      .ok (some (Lexeme.BINARY_OPERATOR, ['\\', 'w', 'e', 'd', 'g', 'e']),
           (LexicalAnalyser.mk0 "(\\wedge (true))\n".toList).atPos 7) := by
    have h := get_next_token_token
      ((LexicalAnalyser.mk0 "(\\wedge (true))\n".toList).atPos 1) 0
      '\\' ('w' :: 'e' :: 'd' :: 'g' :: 'e' :: ' ' :: '(' :: 't' :: 'r' :: 'u' :: 'e' ::
        ')' :: ')' :: '\n' :: [])
      Lexeme.BINARY_OPERATOR ['\\', 'w', 'e', 'd', 'g', 'e'] 6 rfl (Or.inl rfl) rfl rfl
      (scanLoop_wedge ' ' ('(' :: 't' :: 'r' :: 'u' :: 'e' :: ')' :: ')' :: '\n' :: [])
        (Or.inr rfl))
    simpa using h
  have htok3 : get_next_token
      ((LexicalAnalyser.mk0 "(\\wedge (true))\n".toList).atPos 7) =
      .ok (some (Lexeme.OPEN_PARENTHESIS, ['(']),
           (LexicalAnalyser.mk0 "(\\wedge (true))\n".toList).atPos 9) := by
    have h := get_next_token_token
      ((LexicalAnalyser.mk0 "(\\wedge (true))\n".toList).atPos 7) 1
      '(' ('t' :: 'r' :: 'u' :: 'e' :: ')' :: ')' :: '\n' :: [])
      Lexeme.OPEN_PARENTHESIS ['('] 1 rfl (Or.inr rfl) rfl rfl
      (scanLoop_open 't' _ (Or.inr rfl))
    simpa using h
  have htok4 : get_next_token
      ((LexicalAnalyser.mk0 "(\\wedge (true))\n".toList).atPos 9) =
      .ok (some (Lexeme.CONSTANT, ['t', 'r', 'u', 'e']),
           (LexicalAnalyser.mk0 "(\\wedge (true))\n".toList).atPos 13) := by
    have h := get_next_token_token
      ((LexicalAnalyser.mk0 "(\\wedge (true))\n".toList).atPos 9) 0
      't' ('r' :: 'u' :: 'e' :: ')' :: ')' :: '\n' :: [])
      Lexeme.CONSTANT ['t', 'r', 'u', 'e'] 4 rfl (Or.inl rfl) rfl rfl
      (scanLoop_true ')' (')' :: '\n' :: []) (Or.inr rfl))
    simpa using h
  have hpeekT := peek_next_token_of_get _ _ _ htok1
  have hpeek2T := peek_peek_next_token_of_gets _ _ _ _ _ htok1 htok2
  have h1c := parse_open_parenthesis_of _ _ _ htok1
  have h2c : Parser.parse_binary_operator
      ((LexicalAnalyser.mk0 "(\\wedge (true))\n".toList).atPos 1) =
      .ok (.andOperatorNode,
           (LexicalAnalyser.mk0 "(\\wedge (true))\n".toList).atPos 7) := by
    rw [parse_binary_operator_of _ _ _ _ htok2]
    rfl
  have hpeekI := peek_next_token_of_get _ _ _ htok3
  have hpeek2I := peek_peek_next_token_of_gets _ _ _ _ _ htok3 htok4
  have h3c := parse_open_parenthesis_of _ _ _ htok3
  have h4c : Parser.parse_binary_operator
      ((LexicalAnalyser.mk0 "(\\wedge (true))\n".toList).atPos 9) =
      .error (.unexpected .BINARY_OPERATOR) := by
    rw [parse_binary_operator_of _ _ _ _ htok4]
    rfl
  have hbfI := parse_binary_formula_err2 (Parser.parse 15) _ _ _ h3c h4c
  have hpLeft := parse_succ_binary_err 15 _ _ _ Lexeme.CONSTANT _ hpeekI hpeek2I rfl hbfI
  have houter := parse_binary_formula_err3 (Parser.parse 16) _ _ _
    BinaryOperatorNode.andOperatorNode _ h1c h2c hpLeft
  have hT := parse_succ_binary_err 16 _ _ _ Lexeme.BINARY_OPERATOR _ hpeekT hpeek2T rfl houter
  exact parse_one_line_err_of_parse _ 17 _ rfl hT

theorem parse_binary_formula_err5
    (pf : LexicalAnalyser → Except ParseError (Node × LexicalAnalyser))
    (s s1 s2 s3 s4 : LexicalAnalyser) (op : BinaryOperatorNode) (nl nr : Node)
    (e : ParseError)
    (h1 : Parser.parse_open_parenthesis s = .ok s1)
    (h2 : Parser.parse_binary_operator s1 = .ok (op, s2))
    (h3 : pf s2 = .ok (nl, s3))
    (h4 : pf s3 = .ok (nr, s4))
    (h5 : Parser.parse_close_parenthesis s4 = .error e) :
    Parser.parse_binary_formula pf s = .error e := by
  simp only [Parser.parse_binary_formula, h1, h2, h3, h4, h5]

/-- The truncated line `(\wedge true 2` (no closing parenthesis before the
newline): the scanner returns the no-token signal inside
`parse_close_parenthesis`, which subscripts `None` — the failure is the
TypeError, not the parser's bare `Exception`. -/
theorem wedge_truncated_aux :
    parse_one_line "(\\wedge true 2\n".toList = .error .noneTypeError := by
  have htok1 : get_next_token (LexicalAnalyser.mk0 "(\\wedge true 2\n".toList) =
      .ok (some (Lexeme.OPEN_PARENTHESIS, ['(']),
           (LexicalAnalyser.mk0 "(\\wedge true 2\n".toList).atPos 1) := by
    have h := get_next_token_token (LexicalAnalyser.mk0 "(\\wedge true 2\n".toList) 0
      '(' ('\\' :: 'w' :: 'e' :: 'd' :: 'g' :: 'e' :: ' ' :: 't' :: 'r' :: 'u' ::
        'e' :: ' ' :: '2' :: '\n' :: [])
      Lexeme.OPEN_PARENTHESIS ['('] 1 rfl (Or.inl rfl) rfl rfl
      (scanLoop_open '\\' _ (Or.inr rfl))
    simpa using h
  have htok2 : get_next_token
      ((LexicalAnalyser.mk0 "(\\wedge true 2\n".toList).atPos 1) =
      .ok (some (Lexeme.BINARY_OPERATOR, ['\\', 'w', 'e', 'd', 'g', 'e']),
           (LexicalAnalyser.mk0 "(\\wedge true 2\n".toList).atPos 7) := by
    have h := get_next_token_token
      ((LexicalAnalyser.mk0 "(\\wedge true 2\n".toList).atPos 1) 0
      '\\' ('w' :: 'e' :: 'd' :: 'g' :: 'e' :: ' ' :: 't' :: 'r' :: 'u' :: 'e' ::
        ' ' :: '2' :: '\n' :: [])
      Lexeme.BINARY_OPERATOR ['\\', 'w', 'e', 'd', 'g', 'e'] 6 rfl (Or.inl rfl) rfl rfl
      (scanLoop_wedge ' ' ('t' :: 'r' :: 'u' :: 'e' :: ' ' :: '2' :: '\n' :: [])
        (Or.inr rfl))
    simpa using h
  have htok3 : get_next_token
      ((LexicalAnalyser.mk0 "(\\wedge true 2\n".toList).atPos 7) =
      .ok (some (Lexeme.CONSTANT, ['t', 'r', 'u', 'e']),
           (LexicalAnalyser.mk0 "(\\wedge true 2\n".toList).atPos 12) := by
    have h := get_next_token_token
      ((LexicalAnalyser.mk0 "(\\wedge true 2\n".toList).atPos 7) 1
      't' ('r' :: 'u' :: 'e' :: ' ' :: '2' :: '\n' :: [])
      Lexeme.CONSTANT ['t', 'r', 'u', 'e'] 4 rfl (Or.inr rfl) rfl rfl
      (scanLoop_true ' ' ('2' :: '\n' :: []) (Or.inr rfl))
    simpa using h
  have htok4 : get_next_token
      ((LexicalAnalyser.mk0 "(\\wedge true 2\n".toList).atPos 12) =
      .ok (some (Lexeme.PROPOSITION, ['2']),
           (LexicalAnalyser.mk0 "(\\wedge true 2\n".toList).atPos 14) := by
    have h := get_next_token_token
      ((LexicalAnalyser.mk0 "(\\wedge true 2\n".toList).atPos 12) 1
      '2' ([] ++ '\n' :: [])
      Lexeme.PROPOSITION ('2' :: []) (1 + ([] : List Char).length) rfl (Or.inr rfl)
      (by rfl) rfl
      (scanLoop_prop '2' [] '\n' [] rfl rfl (Or.inr (Or.inr rfl)))
    simpa using h
  have hpeekT := peek_next_token_of_get _ _ _ htok1
  have hpeek2T := peek_peek_next_token_of_gets _ _ _ _ _ htok1 htok2
  have h1c := parse_open_parenthesis_of _ _ _ htok1
  have h2c : Parser.parse_binary_operator
      ((LexicalAnalyser.mk0 "(\\wedge true 2\n".toList).atPos 1) =
      .ok (.andOperatorNode,
           (LexicalAnalyser.mk0 "(\\wedge true 2\n".toList).atPos 7) := by
    rw [parse_binary_operator_of _ _ _ _ htok2]
    rfl
  have hpeek3 := peek_next_token_of_get _ _ _ htok3
  have hc3 := parse_constant_of _ _ _ htok3
  have hl := parse_succ_constant 14 _ _ _ _ hpeek3 hc3
  have hpeek4 := peek_next_token_of_get _ _ _ htok4
  have hp4 := parse_proposition_of _ _ _ htok4
  have hr := parse_succ_proposition 14 _ _ _ _ hpeek4 hp4
  have hclose : Parser.parse_close_parenthesis
      ((LexicalAnalyser.mk0 "(\\wedge true 2\n".toList).atPos 14) =
      .error .noneTypeError := rfl
  have hbf := parse_binary_formula_err5 (Parser.parse 15) _ _ _ _ _
    BinaryOperatorNode.andOperatorNode _ _ _ h1c h2c hl hr hclose
  have hT := parse_succ_binary_err 15 _ _ _ Lexeme.BINARY_OPERATOR _ hpeekT hpeek2T rfl hbf
  exact parse_one_line_err_of_parse _ 16 _ rfl hT

/-- C8 counterexample: SyntaxError is not raised exactly as the claim says.
The line `(\wedge (true))` does fail with the parser's bare `Exception`, but
the raise site is the binary-operator consumption inside the left operand
`(true)`, not the close-parenthesis consumption the claim names; and when
the input ends before a production completes — the truncated line
`(\wedge true 2` — the failure is the `None`-subscript TypeError, a
different error from the bare `Exception` of every raise site. -/
theorem c8_counterexample :
    parse_one_line "(\\wedge (true))\n".toList =
      .error (.unexpected Rule.BINARY_OPERATOR) ∧
    Rule.BINARY_OPERATOR ≠ Rule.CLOSE_PARENTHESIS ∧
    parse_one_line "(\\wedge true 2\n".toList = .error .noneTypeError ∧
    ∀ r : Rule, ParseError.noneTypeError ≠ ParseError.unexpected r :=
  ⟨wedge_missing_operand_aux, by decide, wedge_truncated_aux,
   fun r h => ParseError.noConfusion h⟩

/-- C8 (amended).  The parser's SyntaxError — the bare `raise Exception()` of
the source — is raised when a consumption site receives a token of unexpected
kind: the formula dispatch and the open-parenthesis, close-parenthesis,
unary-operator and constant consumers each raise it on a token of any other
kind, and the binary-operator consumer raises it when the token text is none
of the four operator literals (the proposition consumer instead fails its
`assert`).  When the input ends before a production completes, the scanner
returns the no-token signal and the consumer fails with the `None`-subscript
TypeError, not the SyntaxError.  Concretely, `(\wedge (true))` fails with the
SyntaxError raised at the binary-operator consumption while the left operand
`(true)` is parsed as a binary formula, and the truncated `(\wedge true 2`
fails with the TypeError; in both cases the failure propagates to the caller
and no partial Formula is produced. -/
theorem c8_syntax_error :
    (∀ (s s' : LexicalAnalyser) (lex : Lexeme) (w : List Char),
      get_next_token s = .ok (some (lex, w), s') →
      (lex == Lexeme.OPEN_PARENTHESIS) = false →
      Parser.parse_open_parenthesis s = .error (.unexpected Rule.OPEN_PARENTHESIS)) ∧
    (∀ (s s' : LexicalAnalyser) (lex : Lexeme) (w : List Char),
      get_next_token s = .ok (some (lex, w), s') →
      (lex == Lexeme.CLOSE_PARENTHESIS) = false →
      Parser.parse_close_parenthesis s = .error (.unexpected Rule.CLOSE_PARENTHESIS)) ∧
    (∀ (s s' : LexicalAnalyser) (lex : Lexeme) (w : List Char),
      get_next_token s = .ok (some (lex, w), s') →
      (lex == Lexeme.UNARY_OPERATOR) = false →
      Parser.parse_unary_operator s = .error (.unexpected Rule.UNARY_OPERATOR)) ∧
    (∀ (s s' : LexicalAnalyser) (lex : Lexeme) (w : List Char),
      get_next_token s = .ok (some (lex, w), s') →
      (lex == Lexeme.CONSTANT) = false →
      Parser.parse_constant s = .error (.unexpected Rule.CONSTANT)) ∧
    (∀ (s s' : LexicalAnalyser) (lex : Lexeme) (w : List Char),
      get_next_token s = .ok (some (lex, w), s') →
      (w == "\\wedge".toList) = false → (w == "\\vee".toList) = false →
      (w == "\\rightarrow".toList) = false → (w == "\\leftrightarrow".toList) = false →
      Parser.parse_binary_operator s = .error (.unexpected Rule.BINARY_OPERATOR)) ∧
    (∀ (d : Nat) (s s' : LexicalAnalyser) (lex : Lexeme) (w : List Char),
      peek_next_token s = .ok (some (lex, w), s') →
      (lex == Lexeme.CONSTANT) = false → (lex == Lexeme.PROPOSITION) = false →
      (lex == Lexeme.OPEN_PARENTHESIS) = false →
      Parser.parse (d + 1) s = .error (.unexpected Rule.FORMULA)) ∧
    (∀ (s s' : LexicalAnalyser),
      get_next_token s = .ok (none, s') →
      Parser.parse_open_parenthesis s = .error .noneTypeError ∧
      Parser.parse_close_parenthesis s = .error .noneTypeError ∧
      Parser.parse_unary_operator s = .error .noneTypeError ∧
      Parser.parse_constant s = .error .noneTypeError ∧
      Parser.parse_proposition s = .error .noneTypeError ∧
      Parser.parse_binary_operator s = .error .noneTypeError) ∧
    parse_one_line "(\\wedge (true))\n".toList =
      .error (.unexpected Rule.BINARY_OPERATOR) ∧
    parse_one_line "(\\wedge true 2\n".toList = .error .noneTypeError := by
  refine ⟨?_, ?_, ?_, ?_, ?_, ?_, ?_, wedge_missing_operand_aux, wedge_truncated_aux⟩
  · intro s s' lex w h hne
    simp only [Parser.parse_open_parenthesis, h, hne, Bool.false_eq_true, if_false]
  · intro s s' lex w h hne
    simp only [Parser.parse_close_parenthesis, h, hne, Bool.false_eq_true, if_false]
  · intro s s' lex w h hne
    simp only [Parser.parse_unary_operator, h, hne, Bool.false_eq_true, if_false]
  · intro s s' lex w h hne
    simp only [Parser.parse_constant, h, hne, Bool.false_eq_true, if_false]
  · intro s s' lex w h h1 h2 h3 h4
    simp only [Parser.parse_binary_operator, h, h1, h2, h3, h4,
      Bool.false_eq_true, if_false]
  · intro d s s' lex w hpeek h1 h2 h3
    cases lex with
    | CONSTANT => exact absurd h1 (by simp)
    | PROPOSITION => exact absurd h2 (by simp)
    | OPEN_PARENTHESIS => exact absurd h3 (by simp)
    | CLOSE_PARENTHESIS => simp only [Parser.parse, hpeek]
    | UNARY_OPERATOR => simp only [Parser.parse, hpeek]
    | BINARY_OPERATOR => simp only [Parser.parse, hpeek]
  · intro s s' h
    refine ⟨?_, ?_, ?_, ?_, ?_, ?_⟩
    · simp only [Parser.parse_open_parenthesis, h]
    · simp only [Parser.parse_close_parenthesis, h]
    · simp only [Parser.parse_unary_operator, h]
    · simp only [Parser.parse_constant, h]
    · simp only [Parser.parse_proposition, h]
    · simp only [Parser.parse_binary_operator, h]

/-! ## The automaton definitions are immutable, and tables reset on a token

`execute` and `reset` touch only the `state` field; a scan therefore preserves
the `defn` part of every table entry, and the table a token-returning
`get_next_token` leaves behind is the reset of the table it started from. -/

theorem execute_defn (d d' : DeterministicFiniteAutomata) (c : Char)
    (h : d.execute c = .ok d') : d'.defn = d.defn := by
  cases hc : ALPHABET.contains c with
  | true =>
    rw [execute_eq d c hc] at h
    simp only [Except.ok.injEq] at h
    subst h
    rfl
  | false =>
    rw [execute_error d c hc] at h
    exact absurd h (by simp)

theorem runPatterns_defn (c : Char) :
    ∀ (ps ps' : List (Lexeme × DeterministicFiniteAutomata))
      (fired : Option (Lexeme × DeterministicFiniteAutomata)),
      runPatterns ps c = .ok (ps', fired) → ps'.map lexDefn = ps.map lexDefn := by
  intro ps
  induction ps with
  | nil =>
    intro ps' fired h
    simp only [runPatterns, Except.ok.injEq, Prod.mk.injEq] at h
    obtain ⟨h1, h2⟩ := h
    subst h1
    rfl
  | cons p rest ih =>
    intro ps' fired h
    obtain ⟨lex, d⟩ := p
    simp only [runPatterns] at h
    cases hex : d.execute c with
    | error e => simp [hex] at h
    | ok d' =>
      simp only [hex] at h
      have hdefn : d'.defn = d.defn := execute_defn d d' c hex
      have hhead : lexDefn (lex, d') = lexDefn (lex, d) := by
        unfold lexDefn
        rw [hdefn]
      by_cases hfin : d'.in_final_state = true
      · rw [if_pos hfin] at h
        simp only [Except.ok.injEq, Prod.mk.injEq] at h
        obtain ⟨h1, h2⟩ := h
        subst h1
        simp only [List.map_cons]
        rw [hhead]
      · rw [if_neg hfin] at h
        cases hrest : runPatterns rest c with
        | error e => simp [hrest] at h
        | ok pr =>
          obtain ⟨rest', fired'⟩ := pr
          simp only [hrest, Except.ok.injEq, Prod.mk.injEq] at h
          obtain ⟨h1, h2⟩ := h
          subst h1
          simp only [List.map_cons]
          rw [hhead, ih rest' fired' hrest]

theorem reset_congr (d1 d2 : DeterministicFiniteAutomata) (h : d1.defn = d2.defn) :
    d1.reset = d2.reset := by
  obtain ⟨t1, i1, f1, s1⟩ := d1
  obtain ⟨t2, i2, f2, s2⟩ := d2
  simp only [DeterministicFiniteAutomata.defn, Prod.mk.injEq] at h
  obtain ⟨h1, h2, h3⟩ := h
  subst h1
  subst h2
  subst h3
  rfl

theorem reset_dfas_congr :
    ∀ (ps qs : List (Lexeme × DeterministicFiniteAutomata)),
      ps.map lexDefn = qs.map lexDefn → reset_dfas ps = reset_dfas qs := by
  intro ps
  induction ps with
  | nil =>
    intro qs h
    cases qs with
    | nil => rfl
    | cons q qs' => exact absurd h (by simp)
  | cons p rest ih =>
    intro qs h
    cases qs with
    | nil => exact absurd h (by simp)
    | cons q qs' =>
      simp only [List.map_cons, List.cons.injEq] at h
      obtain ⟨h1, h2⟩ := h
      unfold lexDefn at h1
      simp only [Prod.mk.injEq] at h1
      unfold reset_dfas
      simp only [List.map_cons]
      have hrec := ih qs' h2
      unfold reset_dfas at hrec
      rw [h1.1, reset_congr p.2 q.2 h1.2, hrec]

theorem scanLoop_token_reset :
    ∀ (rem : List Char) (ps ps2 : List (Lexeme × DeterministicFiniteAutomata))
      (w : List Char) (t : Lexeme × List Char) (n k : Nat),
      scanLoop ps rem w n = .ok (some t, ps2, k) → ps2 = reset_dfas ps := by
  intro rem
  induction rem with
  | nil =>
    intro ps ps2 w t n k h
    simp [scanLoop] at h
  | cons c rest ih =>
    intro ps ps2 w t n k h
    simp only [scanLoop] at h
    by_cases hc : c = '\n'
    · subst hc
      simp at h
    · rw [if_neg (by simp [hc])] at h
      cases hrp : runPatterns ps c.toLower with
      | error e => simp [hrp] at h
      | ok pr =>
        obtain ⟨ps', fired⟩ := pr
        simp only [hrp] at h
        have hdefn := runPatterns_defn c.toLower ps ps' fired hrp
        cases fired with
        | some pf =>
          obtain ⟨lex, dfa⟩ := pf
          cases hm : munch dfa rest (w ++ [c.toLower]) (n + 1) with
          | error e => simp [hm] at h
          | ok r =>
            obtain ⟨d2, w2, n2⟩ := r
            simp only [hm, Except.ok.injEq, Prod.mk.injEq] at h
            obtain ⟨h1, h2, h3⟩ := h
            rw [← h2]
            exact reset_dfas_congr ps' ps hdefn
        | none =>
          rw [ih ps' ps2 (w ++ [c.toLower]) t (n + 1) k h]
          exact reset_dfas_congr ps' ps hdefn

theorem get_token_reset (s : LexicalAnalyser) (t : Lexeme × List Char)
    (s' : LexicalAnalyser) (h : get_next_token s = .ok (some t, s')) :
    s'.patterns = reset_dfas s.patterns := by
  unfold get_next_token at h
  cases hg : s.content.get? s.next_character_position with
  | none =>
    simp only [hg] at h
    exact absurd h (by simp)
  | some c =>
    simp only [hg] at h
    by_cases h0 : (c.toLower == ' ') = true
    · simp only [h0, if_true] at h
      cases hscan : scanLoop s.patterns
          (s.content.drop (s.next_character_position + 1)) [] 0 with
      | error e => simp [hscan] at h
      | ok rr =>
        obtain ⟨tok, ps2, n⟩ := rr
        simp only [hscan, Except.ok.injEq, Prod.mk.injEq] at h
        obtain ⟨htok, hs⟩ := h
        rw [← hs]
        exact scanLoop_token_reset _ _ _ _ _ _ _ (htok ▸ hscan)
    · have h0' : (c.toLower == ' ') = false := by
        revert h0; cases c.toLower == ' ' <;> simp
      simp only [h0', Bool.false_eq_true, if_false, Nat.add_zero] at h
      cases hscan : scanLoop s.patterns
          (s.content.drop s.next_character_position) [] 0 with
      | error e => simp [hscan] at h
      | ok rr =>
        obtain ⟨tok, ps2, n⟩ := rr
        simp only [hscan, Except.ok.injEq, Prod.mk.injEq] at h
        obtain ⟨htok, hs⟩ := h
        rw [← hs]
        exact scanLoop_token_reset _ _ _ _ _ _ _ (htok ▸ hscan)

/-- A `None` return of the scan loop can only come from hitting a newline:
the end-of-formula signal requires a newline in the remaining content. -/
theorem scanLoop_none_newline :
    ∀ (rem : List Char) (ps ps2 : List (Lexeme × DeterministicFiniteAutomata))
      (w : List Char) (n k : Nat),
      scanLoop ps rem w n = .ok (none, ps2, k) → '\n' ∈ rem := by
  intro rem
  induction rem with
  | nil =>
    intro ps ps2 w n k h
    simp [scanLoop] at h
  | cons c rest ih =>
    intro ps ps2 w n k h
    by_cases hc : c = '\n'
    · subst hc
      exact List.mem_cons_self _ _
    · simp only [scanLoop] at h
      rw [if_neg (by simp [hc])] at h
      cases hrp : runPatterns ps c.toLower with
      | error e => simp [hrp] at h
      | ok pr =>
        obtain ⟨ps', fired⟩ := pr
        simp only [hrp] at h
        cases fired with
        | some pf =>
          obtain ⟨lex, dfa⟩ := pf
          cases hm : munch dfa rest (w ++ [c.toLower]) (n + 1) with
          | error e => simp [hm] at h
          | ok r =>
            obtain ⟨d2, w2, n2⟩ := r
            simp [hm] at h
        | none =>
          exact List.mem_cons_of_mem c (ih ps' ps2 (w ++ [c.toLower]) (n + 1) k h)

/-- `get_next_token` on a scanner whose remaining content starts with a
non-separator character, given the scan loop's outcome on that content:
any table and any outcome (token or the end-of-formula signal). -/
theorem get_next_token_of_scan (s : LexicalAnalyser) (c0 : Char) (rem : List Char)
    (tok : Option (Lexeme × List Char))
    (ps' : List (Lexeme × DeterministicFiniteAutomata)) (k : Nat)
    (hc : s.content.drop s.next_character_position = c0 :: rem)
    (h0 : (c0.toLower == ' ') = false)
    (hscan : scanLoop s.patterns (c0 :: rem) [] 0 = .ok (tok, ps', k)) :
    get_next_token s = .ok (tok,
      { s with patterns := ps',
               next_character_position := s.next_character_position + k }) := by
  have hget : s.content.get? s.next_character_position = some c0 := by
    rw [get?_eq_head_drop, hc]
    rfl
  have hdrop : s.content.drop (s.next_character_position + 0) = c0 :: rem := by
    simpa using hc
  unfold get_next_token
  rw [hget]
  simp only [h0, if_false, Bool.false_eq_true]
  rw [hdrop, hscan]
  rfl

/-- C4 counterexample: `peek_next_token` is not pure.  On the line `ture` the
peek returns the no-token signal while leaving the shallow-copied pattern
table — shared with the real scanner — dirty: the constant automaton is stuck
in state 2 instead of its pristine 0.  The subsequent real `get_next_token`
then runs from the dirty table and produces a CONSTANT token `ture` (a word
the fresh table would never accept), not the token the peek reported. -/
theorem c4_counterexample :
    peekObserve (mk0 "ture\n".toList) =
      .ok (none, 0, [2, 0, 999, 999, 999, 999]) ∧
    (mk0 "ture\n".toList).patterns.map (fun p => p.2.state) =
      [0, 0, 0, 0, 0, 0] ∧
    peekThenGet "ture\n".toList =
      .ok (none, some (Lexeme.CONSTANT, "ture".toList)) := by
  have hscanT : scanLoop build_patterns ('t' :: 'u' :: 'r' :: 'e' :: '\n' :: []) [] 0 =
      .ok (none, patternsAt 2 0 999 999 999 999, 4) := by
    rw [show build_patterns = patternsAt 0 0 0 0 0 0 from rfl]
    rw [scanLoop_cons_none (patternsAt 0 0 0 0 0 0) (patternsAt 1 0 999 999 999 999)
      't' _ _ _ rfl rfl]
    rw [scanLoop_cons_none (patternsAt 1 0 999 999 999 999) (patternsAt 1 0 999 999 999 999)
      'u' _ _ _ rfl rfl]
    rw [scanLoop_cons_none (patternsAt 1 0 999 999 999 999) (patternsAt 2 0 999 999 999 999)
      'r' _ _ _ rfl rfl]
    rw [scanLoop_cons_none (patternsAt 2 0 999 999 999 999) (patternsAt 2 0 999 999 999 999)
      'e' _ _ _ rfl rfl]
    rfl
  have hgetT : get_next_token (mk0 "ture\n".toList) =
      .ok (none, (⟨patternsAt 2 0 999 999 999 999, "ture\n".toList, 4⟩ : LexicalAnalyser)) := by
    have h := get_next_token_of_scan (mk0 "ture\n".toList) 't' ('u' :: 'r' :: 'e' :: '\n' :: [])
      none (patternsAt 2 0 999 999 999 999) 4 rfl rfl hscanT
    simpa using h
  have hpeekT : peek_next_token (mk0 "ture\n".toList) =
      .ok (none, (⟨patternsAt 2 0 999 999 999 999, "ture\n".toList, 0⟩ : LexicalAnalyser)) := by
    simp only [peek_next_token, hgetT]
    rfl
  have hscanG : scanLoop (patternsAt 2 0 999 999 999 999)
      ('t' :: 'u' :: 'r' :: 'e' :: '\n' :: []) [] 0 =
      .ok (some (Lexeme.CONSTANT, ['t', 'u', 'r', 'e']), build_patterns, 4) := by
    rw [scanLoop_cons_none (patternsAt 2 0 999 999 999 999) (patternsAt 2 0 999 999 999 999)
      't' _ _ _ rfl rfl]
    rw [scanLoop_cons_none (patternsAt 2 0 999 999 999 999) (patternsAt 3 0 999 999 999 999)
      'u' _ _ _ rfl rfl]
    rw [scanLoop_cons_none (patternsAt 3 0 999 999 999 999) (patternsAt 3 0 999 999 999 999)
      'r' _ _ _ rfl rfl]
    rw [scanLoop_cons_fired (patternsAt 3 0 999 999 999 999) (patternsAt 4 0 999 999 999 999)
      'e' _ _ _ Lexeme.CONSTANT ⟨constantTransactions, 0, [4, 10], 4⟩ rfl rfl]
    rfl
  have hgetG : get_next_token
      (⟨patternsAt 2 0 999 999 999 999, "ture\n".toList, 0⟩ : LexicalAnalyser) =
      .ok (some (Lexeme.CONSTANT, ['t', 'u', 'r', 'e']),
           (⟨build_patterns, "ture\n".toList, 4⟩ : LexicalAnalyser)) := by
    have h := get_next_token_of_scan
      (⟨patternsAt 2 0 999 999 999 999, "ture\n".toList, 0⟩ : LexicalAnalyser)
      't' ('u' :: 'r' :: 'e' :: '\n' :: [])
      (some (Lexeme.CONSTANT, ['t', 'u', 'r', 'e'])) build_patterns 4 rfl rfl hscanG
    simpa using h
  refine ⟨?_, rfl, ?_⟩
  · simp only [peekObserve, hpeekT]
    rfl
  · simp only [peekThenGet, hpeekT, hgetG]
    rfl

/-- C4 (amended).  A peek never moves the real cursor and never changes the
content, and — when the scanner's table is fresh — a peek that reports a token
is pure: the real scanner is left exactly unchanged and the subsequent
`get_next_token` is precisely the call the peek simulated, returning the same
token.  (When the peek reports no token it leaves the shared table dirty, see
the counterexample.) -/
theorem c4_lookahead (s : LexicalAnalyser) (r : Option (Lexeme × List Char))
    (s' : LexicalAnalyser) (h : peek_next_token s = .ok (r, s')) :
    s'.next_character_position = s.next_character_position ∧
    s'.content = s.content ∧
    (s.patterns = build_patterns →
      ∀ t, r = some t → s' = s ∧ ∃ s₂, get_next_token s = .ok (some t, s₂)) := by
  unfold peek_next_token at h
  cases hg : get_next_token s with
  | error e =>
    simp only [hg] at h
    exact absurd h (by simp)
  | ok res =>
    obtain ⟨tok, s₂⟩ := res
    simp only [hg, Except.ok.injEq, Prod.mk.injEq] at h
    obtain ⟨h1, h2⟩ := h
    subst h1
    rw [← h2]
    refine ⟨rfl, rfl, ?_⟩
    intro hp t ht
    subst ht
    have hreset := get_token_reset s t s₂ hg
    have hps : s₂.patterns = s.patterns := by
      rw [hreset, hp]
      rfl
    constructor
    · rw [hps]
    · exact ⟨s₂, rfl⟩

/-- Witness for C4 on the line `true`: the peek returns the CONSTANT token
and leaves the scanner unchanged; the real call returns the same token. -/
theorem c4_lookahead_witness :
    peek_next_token (mk0 "true\n".toList) =
      .ok (some (Lexeme.CONSTANT, "true".toList), mk0 "true\n".toList) ∧
    mk0 "true\n".toList = mk0 "true\n".toList ∧
    ∃ s₂, get_next_token (mk0 "true\n".toList) =
      .ok (some (Lexeme.CONSTANT, "true".toList), s₂) := by
  have htok : get_next_token (mk0 "true\n".toList) =
      .ok (some (Lexeme.CONSTANT, ['t', 'r', 'u', 'e']),
           (mk0 "true\n".toList).atPos 4) := by
    have h := get_next_token_token (mk0 "true\n".toList) 0 't' ('r' :: 'u' :: 'e' :: '\n' :: [])
      Lexeme.CONSTANT ['t', 'r', 'u', 'e'] 4 rfl (Or.inl rfl) rfl rfl
      (scanLoop_true '\n' [] (Or.inl rfl))
    simpa using h
  have hpeek := peek_next_token_of_get _ _ _ htok
  have h3 := (c4_lookahead _ _ _ hpeek).2.2 rfl (Lexeme.CONSTANT, ['t', 'r', 'u', 'e']) rfl
  exact ⟨hpeek, h3.1, h3.2⟩

/-- C5 counterexample: `get_next_token` does not reset the automata when end
of input is reached with no match.  On the line `t` the call returns the
no-token signal with the constant automaton left in state 1 and the four
parenthesis/operator automata stuck in the dead state 999, while a fresh
table holds every automaton in state 0 — so the next attempt does observe
leftover state. -/
theorem c5_counterexample :
    observe (mk0 "t\n".toList) = .ok (none, 1, [1, 0, 999, 999, 999, 999]) ∧
    build_patterns.map (fun p => p.2.state) = [0, 0, 0, 0, 0, 0] := by
  have hscan : scanLoop build_patterns ('t' :: '\n' :: []) [] 0 =
      .ok (none, patternsAt 1 0 999 999 999 999, 1) := by
    rw [show build_patterns = patternsAt 0 0 0 0 0 0 from rfl]
    rw [scanLoop_cons_none (patternsAt 0 0 0 0 0 0) (patternsAt 1 0 999 999 999 999)
      't' _ _ _ rfl rfl]
    rfl
  have hget : get_next_token (mk0 "t\n".toList) =
      .ok (none, (⟨patternsAt 1 0 999 999 999 999, "t\n".toList, 1⟩ : LexicalAnalyser)) := by
    have h := get_next_token_of_scan (mk0 "t\n".toList) 't' ('\n' :: [])
      none (patternsAt 1 0 999 999 999 999) 1 rfl rfl hscan
    simpa using h
  refine ⟨?_, rfl⟩
  simp only [observe, hget]
  rfl

/-- C5 (amended).  After a `get_next_token` call that produces a token, every
automaton in the pattern table is back in its initial state: the reset runs
on the token path.  (On the no-match end-of-input path the call returns with
the table unreset — see the counterexample.) -/
theorem c5_reset_after_token (s : LexicalAnalyser) (t : Lexeme × List Char)
    (s' : LexicalAnalyser) (h : get_next_token s = .ok (some t, s')) :
    ∀ p ∈ s'.patterns, p.2.state = p.2.initial_state := by
  rw [get_token_reset s t s' h]
  intro p hp
  unfold reset_dfas at hp
  rw [List.mem_map] at hp
  obtain ⟨q, hq, hpq⟩ := hp
  rw [← hpq]
  rfl

/-- Witness for C5 on the line `true`. -/
theorem c5_reset_after_token_witness :
    get_next_token (mk0 "true\n".toList) =
      .ok (some (Lexeme.CONSTANT, "true".toList), (mk0 "true\n".toList).atPos 4) ∧
    ∀ p ∈ ((mk0 "true\n".toList).atPos 4).patterns,
      p.2.state = p.2.initial_state := by
  have htok : get_next_token (mk0 "true\n".toList) =
      .ok (some (Lexeme.CONSTANT, ['t', 'r', 'u', 'e']),
           (mk0 "true\n".toList).atPos 4) := by
    have h := get_next_token_token (mk0 "true\n".toList) 0 't' ('r' :: 'u' :: 'e' :: '\n' :: [])
      Lexeme.CONSTANT ['t', 'r', 'u', 'e'] 4 rfl (Or.inl rfl) rfl rfl
      (scanLoop_true '\n' [] (Or.inl rfl))
    simpa using h
  exact ⟨htok, c5_reset_after_token _ _ _ htok⟩

/-- C6.  Maximal munch: on the line `true` the scanner yields exactly one
token — CONSTANT `true` — followed by the end-of-formula signal, and on the
line `23abc` exactly one PROPOSITION token `23abc`, not `2` followed by more
tokens.  The cursor stops at the boundary character (position 4 resp. 5): the
character that would drop the matching automaton out of its final state is
not consumed into the token. -/
theorem c6_maximal_munch :
    tokens2 "true\n".toList =
      .ok (some (Lexeme.CONSTANT, "true".toList), none) ∧
    tokens2 "23abc\n".toList =
      .ok (some (Lexeme.PROPOSITION, "23abc".toList), none) ∧
    observe (mk0 "true\n".toList) =
      .ok (some (Lexeme.CONSTANT, "true".toList), 4, [0, 0, 0, 0, 0, 0]) ∧
    observe (mk0 "23abc\n".toList) =
      .ok (some (Lexeme.PROPOSITION, "23abc".toList), 5, [0, 0, 0, 0, 0, 0]) := by
  have htokA : get_next_token (mk0 "true\n".toList) =
      .ok (some (Lexeme.CONSTANT, ['t', 'r', 'u', 'e']),
           (mk0 "true\n".toList).atPos 4) := by
    have h := get_next_token_token (mk0 "true\n".toList) 0 't' ('r' :: 'u' :: 'e' :: '\n' :: [])
      Lexeme.CONSTANT ['t', 'r', 'u', 'e'] 4 rfl (Or.inl rfl) rfl rfl
      (scanLoop_true '\n' [] (Or.inl rfl))
    simpa using h
  have htokA2 : get_next_token ((mk0 "true\n".toList).atPos 4) =
      .ok (none, (mk0 "true\n".toList).atPos 4) := rfl
  have htokB : get_next_token (mk0 "23abc\n".toList) =
      .ok (some (Lexeme.PROPOSITION, '2' :: ['3', 'a', 'b', 'c']),
           (mk0 "23abc\n".toList).atPos 5) := by
    have h := get_next_token_token (mk0 "23abc\n".toList) 0 '2' (['3', 'a', 'b', 'c'] ++ '\n' :: [])
      Lexeme.PROPOSITION ('2' :: ['3', 'a', 'b', 'c'])
      (1 + (['3', 'a', 'b', 'c'] : List Char).length) rfl (Or.inl rfl) (by rfl) rfl
      (scanLoop_prop '2' ['3', 'a', 'b', 'c'] '\n' [] rfl rfl (Or.inr (Or.inr rfl)))
    simpa using h
  have htokB2 : get_next_token ((mk0 "23abc\n".toList).atPos 5) =
      .ok (none, (mk0 "23abc\n".toList).atPos 5) := rfl
  refine ⟨?_, ?_, ?_, ?_⟩
  · simp only [tokens2, htokA, htokA2]
    rfl
  · simp only [tokens2, htokB, htokB2]
    rfl
  · simp only [observe, htokA, atPos_pos, atPos_patterns, mk0_patterns]
    rfl
  · simp only [observe, htokB, atPos_pos, atPos_patterns, mk0_patterns]
    rfl

/-- C7 (amended).  `execute` rejects any symbol outside the fixed alphabet
with an AlphabetError before attempting a transition, and a scanner call
feeding such a symbol aborts the line with that error.  The error carries the
offending character; it does not carry the character's position (the source
constructs it from the symbol alone — see the counterexample). -/
theorem c7_alphabet_error (d : DeterministicFiniteAutomata) (c : Char)
    (hc : ALPHABET.contains c = false) :
    d.execute c = .error (.alphabetError c) ∧
    get_next_token (mk0 ['#', 'a', '\n']) = .error (.alphabetError '#') :=
  ⟨execute_error d c hc, rfl⟩

/-- Witness for C7 at the symbol `#` and the constant automaton. -/
theorem c7_alphabet_error_witness :
    ALPHABET.contains '#' = false ∧
    DeterministicFiniteAutomata.execute
        ⟨constantTransactions, 0, [4, 10], 0⟩ '#' =
      .error (.alphabetError '#') :=
  ⟨by decide,
   (c7_alphabet_error ⟨constantTransactions, 0, [4, 10], 0⟩ '#' (by decide)).1⟩

/-- C7 counterexample: the error does not carry the offending character's
position.  The out-of-alphabet `#` sits at position 0 of the first line and
at position 1 of the second, yet both scanner calls fail with literally the
same error value — nothing in it records where the character was. -/
theorem c7_counterexample :
    get_next_token (mk0 ['#', 'a', '\n']) = .error (.alphabetError '#') ∧
    get_next_token (mk0 ['(', '#', '\n']) = .error (.alphabetError '#') :=
  ⟨rfl, rfl⟩

/-- C10.  Newline termination is a genuine precondition: whenever no newline
remains at or after the cursor, `get_next_token` can never return the
no-token end-of-input signal — and on the newline-free line `true` the call
(and likewise `end_of_file`, `peek` and `next_character` at the end of that
line) indexes past the end of the content and fails with an index error. -/
theorem c10_newline_required (s : LexicalAnalyser)
    (h : '\n' ∉ s.content.drop s.next_character_position) :
    (∀ r, get_next_token s ≠ .ok (none, r)) ∧
    get_next_token (mk0 "true".toList) = .error .indexError ∧
    end_of_file ((mk0 "true".toList).atPos 4) = .error .indexError ∧
    peek ((mk0 "true".toList).atPos 4) = .error .indexError ∧
    next_character ((mk0 "true".toList).atPos 4) = .error .indexError := by
  refine ⟨?_, rfl, rfl, rfl, rfl⟩
  intro r hget
  unfold get_next_token at hget
  cases hg : s.content.get? s.next_character_position with
  | none =>
    simp only [hg] at hget
    exact absurd hget (by simp)
  | some c =>
    simp only [hg] at hget
    by_cases h0 : (c.toLower == ' ') = true
    · simp only [h0, if_true] at hget
      cases hscan : scanLoop s.patterns
          (s.content.drop (s.next_character_position + 1)) [] 0 with
      | error e => simp [hscan] at hget
      | ok rr =>
        obtain ⟨tok, ps2, n⟩ := rr
        simp only [hscan, Except.ok.injEq, Prod.mk.injEq] at hget
        obtain ⟨htok, -⟩ := hget
        subst htok
        have hmem := scanLoop_none_newline _ _ _ _ _ _ hscan
        rw [← List.drop_drop] at hmem
        exact h (List.drop_subset _ _ hmem)
    · have h0' : (c.toLower == ' ') = false := by
        revert h0
        cases c.toLower == ' ' <;> simp
      simp only [h0', Bool.false_eq_true, if_false, Nat.add_zero] at hget
      cases hscan : scanLoop s.patterns
          (s.content.drop s.next_character_position) [] 0 with
      | error e => simp [hscan] at hget
      | ok rr =>
        obtain ⟨tok, ps2, n⟩ := rr
        simp only [hscan, Except.ok.injEq, Prod.mk.injEq] at hget
        obtain ⟨htok, -⟩ := hget
        subst htok
        exact h (scanLoop_none_newline _ _ _ _ _ _ hscan)

/-- Witness for C10 on the newline-free line `true`. -/
theorem c10_newline_required_witness :
    '\n' ∉ (mk0 "true".toList).content.drop
        (mk0 "true".toList).next_character_position ∧
    ∀ r, get_next_token (mk0 "true".toList) ≠ .ok (none, r) :=
  ⟨by decide, (c10_newline_required (mk0 "true".toList) (by decide)).1⟩

/-! ## Determinism despite the unordered transition set (claim C9)

The source stores each automaton's transitions in a Python `set`, yet iterates
it and takes the first match.  The guards of every automaton built by
`build_patterns` are pairwise disjoint over the alphabet, so the first match
is the only match and the chosen transition does not depend on the iteration
order.  The embedding fixes the textual order; here we prove the choice is
invariant under any permutation of that list. -/

def transitionMatches (s : Nat) (c : Char) (t : Transition) : Bool :=
  t.1 == s && t.2.1 c

theorem findTransition_eq_filter (s : Nat) (c : Char) :
    ∀ ts : List Transition,
      findTransition ts s c =
        ((ts.filter (transitionMatches s c)).head?).map (fun t => t.2.2) := by
  intro ts
  induction ts with
  | nil => rfl
  | cons t rest ih =>
    obtain ⟨src, guard, dst⟩ := t
    by_cases hp : transitionMatches s c (src, guard, dst) = true
    · have hp' : (src == s && guard c) = true := hp
      unfold findTransition
      rw [if_pos hp', List.filter_cons_of_pos hp]
      rfl
    · have hp' : ¬((src == s && guard c) = true) := hp
      unfold findTransition
      rw [if_neg hp', List.filter_cons_of_neg hp]
      exact ih

theorem filter_matches_tail_nil (s : Nat) (c : Char) (t : Transition)
    (rest : List Transition)
    (hc : ALPHABET.contains c = true)
    (hdis : ∀ u ∈ rest, guardsDisjoint t u = true)
    (hp : transitionMatches s c t = true) :
    rest.filter (transitionMatches s c) = [] := by
  rw [List.filter_eq_nil_iff]
  intro u hu hq
  have hd := hdis u hu
  unfold guardsDisjoint at hd
  unfold transitionMatches at hp hq
  simp only [Bool.and_eq_true, beq_iff_eq] at hp hq
  obtain ⟨hps, hpg⟩ := hp
  obtain ⟨hqs, hqg⟩ := hq
  have hsrc : (t.1 == u.1) = true := by
    rw [hps, hqs]
    exact beq_self_eq_true s
  rw [hsrc] at hd
  simp only [Bool.not_true, Bool.false_or] at hd
  have hmem : c ∈ ALPHABET := List.elem_iff.mp hc
  have hall := (List.all_eq_true.mp hd) c hmem
  rw [hpg, hqg] at hall
  simp at hall

theorem filter_matches_subsingleton (s : Nat) (c : Char)
    (hc : ALPHABET.contains c = true) :
    ∀ ts : List Transition,
      ts.Pairwise (fun t1 t2 => guardsDisjoint t1 t2 = true) →
      ts.filter (transitionMatches s c) = [] ∨
      ∃ t, ts.filter (transitionMatches s c) = [t] := by
  intro ts
  induction ts with
  | nil =>
    intro _
    exact Or.inl rfl
  | cons t rest ih =>
    intro hpw
    rw [List.pairwise_cons] at hpw
    obtain ⟨hdis, hpw'⟩ := hpw
    by_cases hp : transitionMatches s c t = true
    · right
      refine ⟨t, ?_⟩
      rw [List.filter_cons_of_pos hp, filter_matches_tail_nil s c t rest hc hdis hp]
    · rw [List.filter_cons_of_neg hp]
      exact ih hpw'

theorem findTransition_perm (ts1 ts2 : List Transition) (s : Nat) (c : Char)
    (hperm : List.Perm ts1 ts2)
    (hdis : ts1.Pairwise (fun t1 t2 => guardsDisjoint t1 t2 = true))
    (hc : ALPHABET.contains c = true) :
    findTransition ts1 s c = findTransition ts2 s c := by
  rw [findTransition_eq_filter, findTransition_eq_filter]
  have hpf : List.Perm (ts1.filter (transitionMatches s c))
      (ts2.filter (transitionMatches s c)) := hperm.filter _
  rcases filter_matches_subsingleton s c hc ts1 hdis with h | ⟨t, h⟩
  · rw [h] at hpf
    have h2 : ts2.filter (transitionMatches s c) = [] := (List.Perm.nil_eq hpf).symm
    rw [h, h2]
  · rw [h] at hpf
    have h2 : ts2.filter (transitionMatches s c) = [t] :=
      List.Perm.eq_singleton hpf.symm
    rw [h, h2]

/-- C9.  Determinism despite the unordered transition set: in every automaton
built by `build_patterns`, for every state and every alphabet symbol at most
one transition guard accepts the symbol (the guards are pairwise disjoint);
consequently the transition chosen by the `for transaction in ...` search, and
with it the state and finality `execute` produces, is the same for every
iteration order (any permutation) of the transition list. -/
theorem c9_deterministic :
    (∀ p ∈ build_patterns,
      List.Pairwise (fun t1 t2 => guardsDisjoint t1 t2 = true) p.2.transactions) ∧
    (∀ p ∈ build_patterns, ∀ (ts' : List Transition) (s : Nat) (c : Char),
      List.Perm p.2.transactions ts' → ALPHABET.contains c = true →
      findTransition ts' s c = findTransition p.2.transactions s c) ∧
    (∀ p ∈ build_patterns, ∀ (ts' : List Transition) (s : Nat) (c : Char),
      List.Perm p.2.transactions ts' → ALPHABET.contains c = true →
      (((⟨ts', p.2.initial_state, p.2.final_states, s⟩ :
          DeterministicFiniteAutomata).execute c).map
            (fun d => (d.state, d.in_final_state))) =
        (((⟨p.2.transactions, p.2.initial_state, p.2.final_states, s⟩ :
          DeterministicFiniteAutomata).execute c).map
            (fun d => (d.state, d.in_final_state)))) := by
  have hdisj : ∀ p ∈ build_patterns,
      List.Pairwise (fun t1 t2 => guardsDisjoint t1 t2 = true) p.2.transactions := by
    decide
  have hfind : ∀ p ∈ build_patterns, ∀ (ts' : List Transition) (s : Nat) (c : Char),
      List.Perm p.2.transactions ts' → ALPHABET.contains c = true →
      findTransition ts' s c = findTransition p.2.transactions s c := by
    intro p hp ts' s c hperm hc
    exact (findTransition_perm p.2.transactions ts' s c hperm (hdisj p hp) hc).symm
  refine ⟨hdisj, hfind, ?_⟩
  intro p hp ts' s c hperm hc
  rw [execute_eq _ c hc, execute_eq _ c hc]
  have hstep : stepOf ts' s c = stepOf p.2.transactions s c := by
    unfold stepOf
    rw [hfind p hp ts' s c hperm hc]
  simp only [Except.map, DeterministicFiniteAutomata.in_final_state]
  rw [hstep]

/-! ## The shape of PROPOSITION tokens (claim C3)

The proposition automaton moves `0 --digit--> 1` (final),
`1 --alnum--> 1`, and dies on other symbols; on symbols with no rule it
stalls.  Because `get_next_token` accumulates every consumed character into
`word` — including characters consumed while *no* automaton was final — a
PROPOSITION token's text is a (possibly empty) digit-free stall prefix,
then the digit that made the automaton final, then alphanumerics collected
by the maximal munch. -/

theorem stepOf_prop_999 (x : Char) : stepOf propositionTransactions 999 x = 999 := rfl

theorem stepOf_prop_0 (x : Char) :
    stepOf propositionTransactions 0 x =
      (if digitChars.contains x = true then 1
       else if alnumChars.contains x = true then 0 else 999) := by
  cases hd : digitChars.contains x with
  | true =>
    have hd' : ("0123456789".toList.contains x) = true := hd
    unfold stepOf
    simp only [propositionTransactions]
    rw [findTransition_cons_true _ _ _ _ _ _
      (by simp only [beq_self_eq_true, Bool.true_and]; exact hd')]
    simp
  | false =>
    have hd' : ("0123456789".toList.contains x) = false := hd
    unfold stepOf
    simp only [propositionTransactions]
    rw [findTransition_cons_false _ _ _ _ _ _
      (by simp only [beq_self_eq_true, Bool.true_and]; exact hd')]
    cases ha : alnumChars.contains x with
    | true =>
      have ha' : ("abcdefghijklmnopqrstuvwxyz0123456789".toList.contains x) = true := ha
      rw [findTransition_cons_false _ _ _ _ _ _
        (by simp only [beq_self_eq_true, Bool.true_and]; rw [ha']; rfl)]
      rw [findTransition_cons_false _ _ _ _ _ _ (by rfl)]
      rw [findTransition_cons_false _ _ _ _ _ _ (by rfl)]
      simp [DeterministicFiniteAutomata.findTransition]
    | false =>
      have ha' : ("abcdefghijklmnopqrstuvwxyz0123456789".toList.contains x) = false := ha
      rw [findTransition_cons_true _ _ _ _ _ _
        (by simp only [beq_self_eq_true, Bool.true_and]; rw [ha']; rfl)]
      simp

theorem stepOf_prop_1 (x : Char) :
    stepOf propositionTransactions 1 x =
      (if alnumChars.contains x = true then 1 else 999) := by
  cases ha : alnumChars.contains x with
  | true =>
    have ha' : ("abcdefghijklmnopqrstuvwxyz0123456789".toList.contains x) = true := ha
    unfold stepOf
    simp only [propositionTransactions]
    rw [findTransition_cons_false _ _ _ _ _ _ (by rfl)]
    rw [findTransition_cons_false _ _ _ _ _ _ (by rfl)]
    rw [findTransition_cons_true _ _ _ _ _ _
      (by simp only [beq_self_eq_true, Bool.true_and]; exact ha')]
    simp
  | false =>
    have ha' : ("abcdefghijklmnopqrstuvwxyz0123456789".toList.contains x) = false := ha
    unfold stepOf
    simp only [propositionTransactions]
    rw [findTransition_cons_false _ _ _ _ _ _ (by rfl)]
    rw [findTransition_cons_false _ _ _ _ _ _ (by rfl)]
    rw [findTransition_cons_false _ _ _ _ _ _
      (by simp only [beq_self_eq_true, Bool.true_and]; exact ha')]
    rw [findTransition_cons_true _ _ _ _ _ _
      (by simp only [beq_self_eq_true, Bool.true_and]; rw [ha']; rfl)]
    simp

/-- One `for pattern in self.patterns` round on a table of the standard
shape: either no automaton fired (and the table is the fully stepped one,
with the proposition automaton non-final), or the fired pattern is one of
the six — with the proposition case recording the stepped state. -/
theorem runPatterns_patternsAt_cases (q1 q2 q3 q4 q5 q6 : Nat) (x : Char)
    (hx : ALPHABET.contains x = true)
    (ps' : List (Lexeme × DeterministicFiniteAutomata))
    (fired : Option (Lexeme × DeterministicFiniteAutomata))
    (h : runPatterns (patternsAt q1 q2 q3 q4 q5 q6) x = .ok (ps', fired)) :
    (fired = none ∧
      ps' = patternsAt (stepOf constantTransactions q1 x)
        (stepOf propositionTransactions q2 x)
        (stepOf openParenthesisTransactions q3 x)
        (stepOf closeParenthesisTransactions q4 x)
        (stepOf unaryOperatorTransactions q5 x)
        (stepOf binaryOperatorTransactions q6 x) ∧
      ¬(([1].contains (stepOf propositionTransactions q2 x)) = true)) ∨
    (∃ dfa, fired = some (Lexeme.CONSTANT, dfa)) ∨
    (fired = some (Lexeme.PROPOSITION,
        ⟨propositionTransactions, 0, [1], stepOf propositionTransactions q2 x⟩) ∧
      ([1].contains (stepOf propositionTransactions q2 x)) = true) ∨
    (∃ dfa, fired = some (Lexeme.OPEN_PARENTHESIS, dfa)) ∨
    (∃ dfa, fired = some (Lexeme.CLOSE_PARENTHESIS, dfa)) ∨
    (∃ dfa, fired = some (Lexeme.UNARY_OPERATOR, dfa)) ∨
    (∃ dfa, fired = some (Lexeme.BINARY_OPERATOR, dfa)) := by
  have e1 := execute_eq ⟨constantTransactions, 0, [4, 10], q1⟩ x hx
  have e2 := execute_eq ⟨propositionTransactions, 0, [1], q2⟩ x hx
  have e3 := execute_eq ⟨openParenthesisTransactions, 0, [1], q3⟩ x hx
  have e4 := execute_eq ⟨closeParenthesisTransactions, 0, [1], q4⟩ x hx
  have e5 := execute_eq ⟨unaryOperatorTransactions, 0, [4], q5⟩ x hx
  have e6 := execute_eq ⟨binaryOperatorTransactions, 0, [6, 9, 19, 33], q6⟩ x hx
  simp only [patternsAt, runPatterns, e1, e2, e3, e4, e5, e6,
    DeterministicFiniteAutomata.in_final_state] at h
  by_cases f1 : ([4, 10].contains (stepOf constantTransactions q1 x)) = true
  · rw [if_pos f1] at h
    simp only [Except.ok.injEq, Prod.mk.injEq] at h
    exact Or.inr (Or.inl ⟨_, h.2.symm⟩)
  · rw [if_neg f1] at h
    by_cases f2 : ([1].contains (stepOf propositionTransactions q2 x)) = true
    · rw [if_pos f2] at h
      simp only [Except.ok.injEq, Prod.mk.injEq] at h
      exact Or.inr (Or.inr (Or.inl ⟨h.2.symm, f2⟩))
    · rw [if_neg f2] at h
      by_cases f3 : ([1].contains (stepOf openParenthesisTransactions q3 x)) = true
      · rw [if_pos f3] at h
        simp only [Except.ok.injEq, Prod.mk.injEq] at h
        exact Or.inr (Or.inr (Or.inr (Or.inl ⟨_, h.2.symm⟩)))
      · rw [if_neg f3] at h
        by_cases f4 : ([1].contains (stepOf closeParenthesisTransactions q4 x)) = true
        · rw [if_pos f4] at h
          simp only [Except.ok.injEq, Prod.mk.injEq] at h
          exact Or.inr (Or.inr (Or.inr (Or.inr (Or.inl ⟨_, h.2.symm⟩))))
        · rw [if_neg f4] at h
          by_cases f5 : ([4].contains (stepOf unaryOperatorTransactions q5 x)) = true
          · rw [if_pos f5] at h
            simp only [Except.ok.injEq, Prod.mk.injEq] at h
            exact Or.inr (Or.inr (Or.inr (Or.inr (Or.inr (Or.inl ⟨_, h.2.symm⟩)))))
          · rw [if_neg f5] at h
            by_cases f6 : ([6, 9, 19, 33].contains (stepOf binaryOperatorTransactions q6 x)) = true
            · rw [if_pos f6] at h
              simp only [Except.ok.injEq, Prod.mk.injEq] at h
              exact Or.inr (Or.inr (Or.inr (Or.inr (Or.inr (Or.inr ⟨_, h.2.symm⟩)))))
            · rw [if_neg f6] at h
              simp only [Except.ok.injEq, Prod.mk.injEq] at h
              exact Or.inl ⟨h.2.symm, h.1.symm, f2⟩

/-- The maximal munch from a proposition automaton extends the word only by
alphanumeric characters. -/
theorem munch_prop_shape :
    ∀ (rest : List Char) (st : Nat) (w0 : List Char) (n : Nat)
      (d' : DeterministicFiniteAutomata) (w' : List Char) (n' : Nat),
      munch ⟨propositionTransactions, 0, [1], st⟩ rest w0 n = .ok (d', w', n') →
      ∃ t, w' = w0 ++ t ∧ t.all (fun x => alnumChars.contains x) = true := by
  intro rest
  induction rest with
  | nil =>
    intro st w0 n d' w' n' h
    simp only [munch] at h
    by_cases hf : (⟨propositionTransactions, 0, [1], st⟩ :
        DeterministicFiniteAutomata).in_final_state = true
    · rw [if_pos hf] at h
      exact absurd h (by simp)
    · rw [if_neg hf] at h
      simp only [Except.ok.injEq, Prod.mk.injEq] at h
      exact ⟨[], by rw [← h.2.1]; simp, rfl⟩
  | cons c r2 ih =>
    intro st w0 n d' w' n' h
    simp only [munch] at h
    by_cases hf : (⟨propositionTransactions, 0, [1], st⟩ :
        DeterministicFiniteAutomata).in_final_state = true
    · rw [if_pos hf] at h
      by_cases hnl : (c == '\n') = true
      · rw [if_pos hnl] at h
        simp only [Except.ok.injEq, Prod.mk.injEq] at h
        exact ⟨[], by rw [← h.2.1]; simp, rfl⟩
      · rw [if_neg hnl] at h
        have hst : st = 1 := by
          have hf' := hf
          simp [DeterministicFiniteAutomata.in_final_state] at hf'
          omega
        subst hst
        cases hal : ALPHABET.contains c.toLower with
        | false =>
          simp only [execute_error _ _ hal] at h
          exact absurd h (by simp)
        | true =>
          simp only [execute_eq _ _ hal, DeterministicFiniteAutomata.in_final_state] at h
          by_cases hf2 : ([1].contains (stepOf propositionTransactions 1 c.toLower)) = true
          · rw [if_pos hf2] at h
            obtain ⟨t', hw', ht'⟩ := ih _ _ _ _ _ _ h
            have ha : alnumChars.contains c.toLower = true := by
              rw [stepOf_prop_1] at hf2
              by_cases ha : alnumChars.contains c.toLower = true
              · exact ha
              · exfalso
                rw [if_neg ha] at hf2
                exact absurd hf2 (by decide)
            refine ⟨c.toLower :: t', ?_, ?_⟩
            · rw [hw']
              simp
            · simp only [List.all_cons, ha, ht']
              rfl
          · rw [if_neg hf2] at h
            simp only [Except.ok.injEq, Prod.mk.injEq] at h
            exact ⟨[], by rw [← h.2.1]; simp, rfl⟩
    · rw [if_neg hf] at h
      simp only [Except.ok.injEq, Prod.mk.injEq] at h
      exact ⟨[], by rw [← h.2.1]; simp, rfl⟩

/-- The scan loop, started on a standard-shape table whose proposition
automaton is in state 0 (fresh) or 999 (dead), returns a PROPOSITION token
only if the automaton was fresh, and then the token text is the accumulated
word, a digit-free stall prefix, the digit that fired the automaton, and an
alphanumeric munch tail. -/
theorem scanLoop_prop_shape :
    ∀ (rem : List Char) (q1 q2 q3 q4 q5 q6 : Nat) (w0 : List Char) (n : Nat)
      (w : List Char) (ps2 : List (Lexeme × DeterministicFiniteAutomata)) (k : Nat),
      (q2 = 0 ∨ q2 = 999) →
      scanLoop (patternsAt q1 q2 q3 q4 q5 q6) rem w0 n =
        .ok (some (Lexeme.PROPOSITION, w), ps2, k) →
      q2 = 0 ∧ ∃ pre d t, w = w0 ++ pre ++ d :: t ∧
        pre.all (fun x => !(digitChars.contains x)) = true ∧
        digitChars.contains d = true ∧
        t.all (fun x => alnumChars.contains x) = true := by
  intro rem
  induction rem with
  | nil =>
    intro q1 q2 q3 q4 q5 q6 w0 n w ps2 k hq2 h
    simp [scanLoop] at h
  | cons c rest ih =>
    intro q1 q2 q3 q4 q5 q6 w0 n w ps2 k hq2 h
    simp only [scanLoop] at h
    by_cases hnl : (c == '\n') = true
    · rw [if_pos hnl] at h
      simp at h
    · rw [if_neg hnl] at h
      cases hal : ALPHABET.contains c.toLower with
      | false =>
        simp only [patternsAt, runPatterns,
          execute_error ⟨constantTransactions, 0, [4, 10], q1⟩ c.toLower hal] at h
        exact absurd h (by simp)
      | true =>
        cases hrp : runPatterns (patternsAt q1 q2 q3 q4 q5 q6) c.toLower with
        | error e => simp [hrp] at h
        | ok pr =>
          obtain ⟨ps', fired⟩ := pr
          simp only [hrp] at h
          rcases runPatterns_patternsAt_cases q1 q2 q3 q4 q5 q6 c.toLower hal ps' fired hrp with
            ⟨hfn, hps', hnf⟩ | ⟨dfa, hfd⟩ | ⟨hfd, hfin⟩ | ⟨dfa, hfd⟩ | ⟨dfa, hfd⟩ |
            ⟨dfa, hfd⟩ | ⟨dfa, hfd⟩
          · -- no automaton fired: recurse
            subst hfn
            simp only [hps'] at h
            have hq2' : stepOf propositionTransactions q2 c.toLower = 0 ∨
                stepOf propositionTransactions q2 c.toLower = 999 := by
              rcases hq2 with rfl | rfl
              · rw [stepOf_prop_0]
                by_cases hd : digitChars.contains c.toLower = true
                · exfalso
                  rw [stepOf_prop_0, if_pos hd] at hnf
                  exact hnf (by decide)
                · rw [if_neg hd]
                  by_cases ha : alnumChars.contains c.toLower = true
                  · rw [if_pos ha]
                    exact Or.inl rfl
                  · rw [if_neg ha]
                    exact Or.inr rfl
              · rw [stepOf_prop_999]
                exact Or.inr rfl
            obtain ⟨hq2eq, pre', d, t, hw, hpre, hd, ht⟩ :=
              ih _ _ _ _ _ _ _ _ _ _ _ hq2' h
            rcases hq2 with rfl | rfl
            · have hnd : digitChars.contains c.toLower = false := by
                by_cases hdig : digitChars.contains c.toLower = true
                · exfalso
                  rw [stepOf_prop_0, if_pos hdig] at hq2eq
                  exact absurd hq2eq (by decide)
                · revert hdig
                  cases digitChars.contains c.toLower <;> simp
              refine ⟨rfl, c.toLower :: pre', d, t, ?_, ?_, hd, ht⟩
              · rw [hw]
                simp
              · simp only [List.all_cons, hnd, hpre]
                rfl
            · exfalso
              rw [stepOf_prop_999] at hq2eq
              exact absurd hq2eq (by decide)
          · -- the constant automaton fired: a CONSTANT token, not PROPOSITION
            subst hfd
            cases hm : munch dfa rest (w0 ++ [c.toLower]) (n + 1) with
            | error e => simp [hm] at h
            | ok r =>
              obtain ⟨dm, wm, nm⟩ := r
              simp [hm] at h
          · -- the proposition automaton fired
            have hst1 : stepOf propositionTransactions q2 c.toLower = 1 := by
              simp at hfin
              omega
            have hq20 : q2 = 0 := by
              rcases hq2 with rfl | rfl
              · rfl
              · rw [stepOf_prop_999] at hst1
                exact absurd hst1 (by decide)
            subst hq20
            have hdig : digitChars.contains c.toLower = true := by
              by_cases hdig : digitChars.contains c.toLower = true
              · exact hdig
              · exfalso
                rw [stepOf_prop_0, if_neg hdig] at hst1
                by_cases ha : alnumChars.contains c.toLower = true
                · rw [if_pos ha] at hst1
                  exact absurd hst1 (by decide)
                · rw [if_neg ha] at hst1
                  exact absurd hst1 (by decide)
            subst hfd
            cases hm : munch ⟨propositionTransactions, 0, [1],
                stepOf propositionTransactions 0 c.toLower⟩ rest (w0 ++ [c.toLower]) (n + 1) with
            | error e => simp [hm] at h
            | ok r =>
              obtain ⟨dm, wm, nm⟩ := r
              simp only [hm, Except.ok.injEq, Prod.mk.injEq, Option.some.injEq,
                true_and] at h
              obtain ⟨t, hwm, ht⟩ := munch_prop_shape rest _ (w0 ++ [c.toLower]) (n + 1) dm wm nm hm
              refine ⟨rfl, [], c.toLower, t, ?_, rfl, hdig, ht⟩
              rw [← h.1, hwm]
              simp
          · subst hfd
            cases hm : munch dfa rest (w0 ++ [c.toLower]) (n + 1) with
            | error e => simp [hm] at h
            | ok r =>
              obtain ⟨dm, wm, nm⟩ := r
              simp [hm] at h
          · subst hfd
            cases hm : munch dfa rest (w0 ++ [c.toLower]) (n + 1) with
            | error e => simp [hm] at h
            | ok r =>
              obtain ⟨dm, wm, nm⟩ := r
              simp [hm] at h
          · subst hfd
            cases hm : munch dfa rest (w0 ++ [c.toLower]) (n + 1) with
            | error e => simp [hm] at h
            | ok r =>
              obtain ⟨dm, wm, nm⟩ := r
              simp [hm] at h
          · subst hfd
            cases hm : munch dfa rest (w0 ++ [c.toLower]) (n + 1) with
            | error e => simp [hm] at h
            | ok r =>
              obtain ⟨dm, wm, nm⟩ := r
              simp [hm] at h

/-- The line `abc1` produces a single PROPOSITION token whose text is the
whole word `abc1`, by a stall prefix `abc` followed by the firing digit. -/
theorem get_abc1 :
    get_next_token (mk0 "abc1\n".toList) =
      .ok (some (Lexeme.PROPOSITION, ['a', 'b', 'c', '1']),
           (⟨build_patterns, "abc1\n".toList, 4⟩ : LexicalAnalyser)) := by
  have hs : scanLoop build_patterns ('a' :: 'b' :: 'c' :: '1' :: '\n' :: []) [] 0 =
      .ok (some (Lexeme.PROPOSITION, ['a', 'b', 'c', '1']), build_patterns, 4) := by
    rw [show build_patterns = patternsAt 0 0 0 0 0 0 from rfl]
    rw [scanLoop_cons_none (patternsAt 0 0 0 0 0 0) (patternsAt 999 0 999 999 999 999)
      'a' _ _ _ rfl rfl]
    rw [scanLoop_cons_none (patternsAt 999 0 999 999 999 999) (patternsAt 999 0 999 999 999 999)
      'b' _ _ _ rfl rfl]
    rw [scanLoop_cons_none (patternsAt 999 0 999 999 999 999) (patternsAt 999 0 999 999 999 999)
      'c' _ _ _ rfl rfl]
    rw [scanLoop_cons_fired (patternsAt 999 0 999 999 999 999) (patternsAt 999 1 999 999 999 999)
      '1' _ _ _ Lexeme.PROPOSITION ⟨propositionTransactions, 0, [1], 1⟩ rfl rfl]
    rfl
  have h := get_next_token_of_scan (mk0 "abc1\n".toList) 'a' ('b' :: 'c' :: '1' :: '\n' :: [])
    (some (Lexeme.PROPOSITION, ['a', 'b', 'c', '1'])) build_patterns 4 rfl rfl hs
  simpa using h

/-- C3 counterexample: on the line `abc1` the scanner returns one
PROPOSITION token whose matched text is `abc1` — a text that starts with the
letter `a`, not with a digit, because `get_next_token` accumulates into
`word` every character consumed while the automata were still stalling. -/
theorem c3_counterexample :
    observe (mk0 "abc1\n".toList) =
      .ok (some (Lexeme.PROPOSITION, "abc1".toList), 4, [0, 0, 0, 0, 0, 0]) ∧
    "abc1".toList.head? = some 'a' ∧
    digitChars.contains 'a' = false := by
  refine ⟨?_, rfl, rfl⟩
  simp only [observe, get_abc1]
  rfl

/-- C3 (amended).  On a scanner with a fresh pattern table, a PROPOSITION
token's matched text is a (possibly empty) digit-free stall prefix, then a
digit — the character on which the proposition automaton became final — then
zero or more alphanumeric characters collected by the maximal munch.  The
spec's shape `Digit (Digit | Letter)*` is the special case of an empty
prefix; the text need not start with a digit (see the counterexample). -/
theorem c3_proposition_text (s : LexicalAnalyser) (w : List Char) (s' : LexicalAnalyser)
    (hp : s.patterns = build_patterns)
    (h : get_next_token s = .ok (some (Lexeme.PROPOSITION, w), s')) :
    ∃ pre d t, w = pre ++ d :: t ∧
      pre.all (fun x => !(digitChars.contains x)) = true ∧
      digitChars.contains d = true ∧
      t.all (fun x => alnumChars.contains x) = true := by
  unfold get_next_token at h
  cases hg : s.content.get? s.next_character_position with
  | none =>
    simp only [hg] at h
    exact absurd h (by simp)
  | some c =>
    simp only [hg] at h
    by_cases h0 : (c.toLower == ' ') = true
    · simp only [h0, if_true] at h
      cases hscan : scanLoop s.patterns
          (s.content.drop (s.next_character_position + 1)) [] 0 with
      | error e => simp [hscan] at h
      | ok rr =>
        obtain ⟨tok, ps2, n⟩ := rr
        simp only [hscan, Except.ok.injEq, Prod.mk.injEq] at h
        obtain ⟨htok, -⟩ := h
        subst htok
        rw [hp, show build_patterns = patternsAt 0 0 0 0 0 0 from rfl] at hscan
        obtain ⟨-, pre, d, t, hw, hpre, hd, ht⟩ :=
          scanLoop_prop_shape _ 0 0 0 0 0 0 [] 0 w ps2 n (Or.inl rfl) hscan
        exact ⟨pre, d, t, by simpa using hw, hpre, hd, ht⟩
    · have h0' : (c.toLower == ' ') = false := by
        revert h0
        cases c.toLower == ' ' <;> simp
      simp only [h0', Bool.false_eq_true, if_false, Nat.add_zero] at h
      cases hscan : scanLoop s.patterns
          (s.content.drop s.next_character_position) [] 0 with
      | error e => simp [hscan] at h
      | ok rr =>
        obtain ⟨tok, ps2, n⟩ := rr
        simp only [hscan, Except.ok.injEq, Prod.mk.injEq] at h
        obtain ⟨htok, -⟩ := h
        subst htok
        rw [hp, show build_patterns = patternsAt 0 0 0 0 0 0 from rfl] at hscan
        obtain ⟨-, pre, d, t, hw, hpre, hd, ht⟩ :=
          scanLoop_prop_shape _ 0 0 0 0 0 0 [] 0 w ps2 n (Or.inl rfl) hscan
        exact ⟨pre, d, t, by simpa using hw, hpre, hd, ht⟩

/-- Witness for C3 on the line `abc1`: prefix `abc`, digit `1`, empty tail. -/
theorem c3_proposition_text_witness :
    (mk0 "abc1\n".toList).patterns = build_patterns ∧
    ∃ pre d t, "abc1".toList = pre ++ d :: t ∧
      pre.all (fun x => !(digitChars.contains x)) = true ∧
      digitChars.contains d = true ∧
      t.all (fun x => alnumChars.contains x) = true :=
  ⟨rfl, c3_proposition_text (mk0 "abc1\n".toList) "abc1".toList _ rfl get_abc1⟩

end ParserLatex
